import Mathlib

/-
Verification of the shift-search core of the coppafish registration pipeline
(src/iss/stitch/shift.py) against its natural-language specification.

The point clouds and candidate-shift grids are embedded over the rationals
(the source manipulates them with exact arithmetic patterns: arange grids,
mean spacing, set differences), while the Gaussian-kernel scores live in the
reals.  Fallible source code (sklearn nearest-neighbour calls on empty
arrays, argmax of an empty score list, a bad direction string) is embedded
with Except, the error string naming the Python exception class raised.
-/

namespace Coppafish

/-- A spot coordinate, ordered (y, x, z) exactly as the source's rows. -/
abbrev Point : Type := ℚ × ℚ × ℚ

def ptZero : Point := (0, 0, 0)

/-- Pointwise addition, modelling `yxz_base + all_shifts[i]`. -/
def addPt (p s : Point) : Point := (p.1 + s.1, p.2.1 + s.2.1, p.2.2 + s.2.2)

/-- Squared Euclidean distance between two points. -/
def sqDistQ (p q : Point) : ℚ :=
  (p.1 - q.1) ^ 2 + (p.2.1 - q.2.1) ^ 2 + (p.2.2 - q.2.2) ^ 2

/-- Smallest squared distance from `p` to a point of the list: the squared
nearest-neighbour distance produced by `NearestNeighbors(n_neighbors=1)`. -/
def nnSq (p : Point) : List Point → ℚ
  | [] => 0
  | [q] => sqDistQ p q
  | q :: r :: tl => min (sqDistQ p q) (nnSq p (r :: tl))

/-- The in-place z-scaling of lines 150-151:
`yxz[:, 2] = yxz[:, 2] * z_scale`. -/
def scaleZ (z_scale : ℚ) (pts : List Point) : List Point :=
  pts.map fun p => (p.1, p.2.1, p.2.2 * z_scale)

/-- `numpy.ndarray.astype(int)` on a float value: truncation toward zero. -/
def truncQ (q : ℚ) : ℤ := if 0 ≤ q then ⌊q⌋ else ⌈q⌉

/-- `np.arange(start, stop, step)` for a nonzero step: the values
`start + k * step` for `0 ≤ k < ⌈(stop - start) / step⌉`. -/
def arangeQ (start stop step : ℚ) : List ℚ :=
  (List.range (max 0 ⌈(stop - start) / step⌉).toNat).map
    fun k : ℕ => start + (k : ℚ) * step

/-- An arithmetic progression of `n` values starting at `a0` with step `s`;
used to state what `np.arange`-built grids look like. -/
def arangePts (a0 s : ℚ) (n : ℕ) : List ℚ :=
  (List.range n).map fun k : ℕ => a0 + (k : ℚ) * s

/-- `np.ediff1d`: the list of consecutive differences. -/
def diffList : List ℚ → List ℚ
  | [] => []
  | [_] => []
  | a :: b :: tl => (b - a) :: diffList (b :: tl)

/-- `np.mean(np.ediff1d(array))`: the mean spacing of the array. -/
def meanStep (a : List ℚ) : ℚ := (diffList a).sum / ((a.length : ℚ) - 1)

def listMinQ : List ℚ → ℚ
  | [] => 0
  | [q] => q
  | q :: r :: tl => min q (listMinQ (r :: tl))

def listMaxQ : List ℚ → ℚ
  | [] => 0
  | [q] => q
  | q :: r :: tl => max q (listMaxQ (r :: tl))

/-- Line 37: `np.arange(array.min() - extend_scale*step, array.min(), step)`. -/
def ext_below (a : List ℚ) (s : ℤ) : List ℚ :=
  arangeQ (listMinQ a - s * meanStep a) (listMinQ a) (meanStep a)

/-- Line 38: `np.arange(array.max() + step,
array.max() + extend_scale*step + step / 2, step)`. -/
def ext_above (a : List ℚ) (s : ℤ) : List ℚ :=
  arangeQ (listMaxQ a + meanStep a)
    (listMaxQ a + s * meanStep a + meanStep a / 2) (meanStep a)

/-- `extend_array(array, extend_scale, direction)` (lines 20-47).  For
`extend_scale == 0` the input is returned untouched before anything else
happens.  Otherwise the mean spacing and both `np.arange` extension arms
(lines 36-38) are computed before the direction is inspected, and they
raise on degenerate arrays: `array.min()` raises `ValueError` on an empty
array, `np.arange` with the nan step of a singleton array raises
`ValueError`, and `np.arange` with a zero step (zero mean spacing) raises
`ZeroDivisionError`.  Only past those does an unrecognised direction raise
`ValueError` at line 46. -/
def extend_array (a : List ℚ) (s : ℤ) (direction : String) :
    Except String (List ℚ) :=
  if s = 0 then .ok a
  else if a = [] then .error "ValueError"
  else if a.length = 1 then .error "ValueError"
  else if meanStep a = 0 then .error "ZeroDivisionError"
  else if direction = "below" then .ok (ext_below a s ++ a)
  else if direction = "above" then .ok (a ++ ext_above a s)
  else if direction = "both" then .ok (ext_below a s ++ a ++ ext_above a s)
  else .error "ValueError"

/-- The constant `1e-50` passed as `refined_scale` in the final search. -/
def smallScale : ℚ := 1 / 10 ^ 50

/-- `refined_shifts(shifts, best_shift, refined_scale, extend_scale)`
(lines 50-71): a window of `extend_scale` steps around `best_shift` with
spacing `ceil(refined_scale * step)`; a single-valued axis is untouched. -/
def refined_shifts (shifts : List ℚ) (best_shift refined_scale extend_scale : ℚ) :
    List ℚ :=
  if shifts.length = 1 then shifts
  else
    arangeQ (best_shift - extend_scale * meanStep shifts)
      (best_shift + extend_scale * meanStep shifts +
        (⌈refined_scale * meanStep shifts⌉ : ℚ) / 2)
      ((⌈refined_scale * meanStep shifts⌉ : ℚ))

/-- Line 98: `np.array(np.meshgrid(y_shifts, x_shifts, z_shifts)).T.reshape(-1, 3)`
enumerates the Cartesian product with z slowest, then y, then x fastest,
each row being `[shift_y, shift_x, shift_z]`. -/
def mesh_shifts (ys xs zs : List ℚ) : List Point :=
  zs.flatMap fun z => ys.flatMap fun y => xs.map fun x => (y, x, z)

/-- Modelled from the spec: `setdiff2d` is imported from `iss/utils/base.py`,
which is not part of the provided sources.  The spec describes the
already-searched-shift exclusion as an explicit set difference over candidate
grids, deterministic; we keep the rows of the first grid that do not occur in
the second, preserving their order. -/
def setdiff2d (a b : List Point) : List Point :=
  a.filter fun r => decide (r ∉ b)

/-- The candidate shifts actually scored by `get_best_shift`: the full mesh,
minus `ignore_shifts` when those are given (lines 98-100). -/
def searched_shifts (ys xs zs : List ℚ) (ignore : Option (List Point)) :
    List Point :=
  match ignore with
  | none => mesh_shifts ys xs zs
  | some ig => setdiff2d (mesh_shifts ys xs zs) ig

/-- The Gaussian kernel applied to one neighbour distance inside
`shift_score`: `exp(-d**2 / (2*thresh**2))` (line 17). -/
noncomputable def gauss_term (thresh : ℚ) (d : ℝ) : ℝ :=
  Real.exp (-d ^ 2 / (2 * (thresh : ℝ) ^ 2))

/-- `shift_score(distances, thresh)` (lines 7-17):
`np.sum(np.exp(-distances**2 / (2*thresh**2)))`. -/
noncomputable def shift_score (distances : List ℝ) (thresh : ℚ) : ℝ :=
  (distances.map (gauss_term thresh)).sum

/-- Euclidean nearest-neighbour distance from `p` to the target cloud, as
returned by `nbrs.kneighbors` (line 105). -/
noncomputable def nn_dist (p : Point) (target : List Point) : ℝ :=
  Real.sqrt ((nnSq p target : ℚ) : ℝ)

/-- The score given to one candidate shift by the loop of lines 103-106:
translate the base cloud, collect nearest-neighbour distances, score them. -/
noncomputable def candidate_score (base target : List Point) (thresh : ℚ)
    (s : Point) : ℝ :=
  shift_score (base.map fun p => nn_dist (addPt p s) target) thresh

/-- `score.argmax()` (line 107): index of the first occurrence of the
largest value. -/
noncomputable def argmaxIdx : List ℝ → ℕ
  | [] => 0
  | [_] => 0
  | x :: y :: tl =>
    if x < (y :: tl).getD (argmaxIdx (y :: tl)) 0 then argmaxIdx (y :: tl) + 1
    else 0

noncomputable def sortR (l : List ℝ) : List ℝ :=
  l.mergeSort fun a b => decide (a ≤ b)

/-- `np.median`: middle of the sorted values, or the mean of the two middle
values for an even count. -/
noncomputable def npMedian (l : List ℝ) : ℝ :=
  if l.length % 2 = 1 then (sortR l).getD (l.length / 2) 0
  else ((sortR l).getD (l.length / 2 - 1) 0 + (sortR l).getD (l.length / 2) 0) / 2

/-- `np.percentile` with linear interpolation, as used by `scipy.stats.iqr`:
with `h = q/100 * (n-1)`, `f = floor h`, the value is
`a[f] + (h - f) * (a[f+1] - a[f])` over the sorted data. -/
noncomputable def percentileLin (l : List ℝ) (q : ℚ) : ℝ :=
  let s := sortR l
  let h : ℚ := q / 100 * ((l.length : ℚ) - 1)
  let f : ℕ := (⌊h⌋).toNat
  s.getD f 0 + ((h : ℝ) - ((⌊h⌋ : ℤ) : ℝ)) * (s.getD (f + 1) (s.getD f 0) - s.getD f 0)

/-- `scipy.stats.iqr`: 75th minus 25th percentile. -/
noncomputable def sciIqr (l : List ℝ) : ℝ :=
  percentileLin l 75 - percentileLin l 25

/-- The quadruple returned by `get_best_shift` (line 108). -/
structure GBSOut where
  shift : Point
  score : ℝ
  med : ℝ
  iqrv : ℝ

/-- `get_best_shift` (lines 74-108).  `NearestNeighbors.fit` raises
`ValueError` on an empty target cloud, `kneighbors` raises `ValueError` on an
empty (shifted) base cloud, and `argmax` raises `ValueError` on an empty
score array; otherwise the best-scoring candidate plus the score median and
interquartile range are returned. -/
noncomputable def get_best_shift (yxz_base yxz_transform : List Point)
    (score_thresh : ℚ) (y_shifts x_shifts z_shifts : List ℚ)
    (ignore_shifts : Option (List Point)) : Except String GBSOut :=
  if yxz_transform = [] then .error "ValueError"
  else if yxz_base = [] then .error "ValueError"
  else if searched_shifts y_shifts x_shifts z_shifts ignore_shifts = [] then
    .error "ValueError"
  else
    let shifts := searched_shifts y_shifts x_shifts z_shifts ignore_shifts
    let score := shifts.map (candidate_score yxz_base yxz_transform score_thresh)
    let bi := argmaxIdx score
    .ok ⟨shifts.getD bi ptZero, score.getD bi 0, npMedian score, sciIqr score⟩

/-- Explicit plumbing for the Python exceptions: a raised exception aborts
the rest of the function. -/
def exBind (e : Except String α) (f : α → Except String β) : Except String β :=
  match e with
  | .error s => .error s
  | .ok a => f a

/-- The grids and current best produced by the optional widened search. -/
structure WidenOut where
  ys : List ℚ
  xs : List ℚ
  zs : List ℚ
  shift : Point
  score : ℝ

/-- Lines 158-164 of `compute_shift`: when the score is below `min_score` and
some widen parameter is positive, every axis is extended with
`extend_array` (default direction `'both'`) — whose degenerate-array
exceptions abort the call — and the engine re-runs over the widened grid,
excluding the initial shifts; otherwise nothing happens. -/
noncomputable def widen_phase (base tr : List Point) (thresh : ℚ)
    (ys xs zs : List ℚ) (z_scale : ℚ) (y_widen x_widen z_widen : ℕ)
    (shift0 : Point) (score0 : ℝ) (min_score : ℝ) (initial : List Point) :
    Except String WidenOut :=
  if score0 < min_score ∧ 0 < max (max y_widen x_widen) z_widen then
    exBind (extend_array ys y_widen "both") fun ys1 =>
      exBind (extend_array xs x_widen "both") fun xs1 =>
        exBind (extend_array zs z_widen "both") fun zs1 =>
          exBind (get_best_shift base tr thresh ys1 xs1
              (zs1.map fun z => z * z_scale) (some initial)) fun g =>
            .ok ⟨ys1, xs1, zs1, g.shift, g.score⟩
  else .ok ⟨ys, xs, zs, shift0, score0⟩

/-- Line 172: the shift of the first refinement is kept only when its score
improves on the current one; the score itself is not updated. -/
noncomputable def keptShift (score1 : ℝ) (g2 : GBSOut) (shift1 : Point) : Point :=
  if score1 < g2.score then g2.shift else shift1

/-- Lines 165-180 of `compute_shift`: when the current score exceeds
`min_score`, a half-step refinement around the current best (whose shift is
kept only if the score improves), then a unit-step refinement whose shift
and score replace the current ones unconditionally, both excluding the
initial shifts; the z component is divided by `z_scale` only on this path. -/
noncomputable def refine_phase (base tr : List Point) (thresh : ℚ)
    (ys xs zs : List ℚ) (z_scale : ℚ) (shift1 : Point) (score1 : ℝ)
    (min_score : ℝ) (initial : List Point) : Except String (Point × ℝ) :=
  if min_score < score1 then
    exBind (get_best_shift base tr thresh
        (refined_shifts ys shift1.1 (1 / 2) 2)
        (refined_shifts xs shift1.2.1 (1 / 2) 2)
        ((refined_shifts zs (shift1.2.2 / z_scale) (1 / 2) 2).map fun z =>
          z * z_scale)
        (some initial)) fun g2 =>
      exBind (get_best_shift base tr thresh
          (refined_shifts (refined_shifts ys shift1.1 (1 / 2) 2)
            (keptShift score1 g2 shift1).1 smallScale 1)
          (refined_shifts (refined_shifts xs shift1.2.1 (1 / 2) 2)
            (keptShift score1 g2 shift1).2.1 smallScale 1)
          ((refined_shifts (refined_shifts zs (shift1.2.2 / z_scale) (1 / 2) 2)
              ((keptShift score1 g2 shift1).2.2 / z_scale) smallScale 1).map
            fun z => z * z_scale)
          (some initial)) fun g3 =>
        .ok ((g3.shift.1, g3.shift.2.1, g3.shift.2.2 / z_scale), g3.score)
  else .ok (shift1, score1)

/-- Line 156-157: `min_score` is replaced by
`median + min_score_auto_param * iqr` of the coarse scores when `None`. -/
noncomputable def msOf (min_score : Option ℝ) (g : GBSOut)
    (min_score_auto_param : ℝ) : ℝ :=
  match min_score with
  | none => g.med + min_score_auto_param * g.iqrv
  | some m => m

/-- `compute_shift` (lines 111-181).  The first two components of the result
are the in-place z-scaled input arrays (lines 150-151 mutate the caller's
arrays); the third is the returned `(best_shift.astype(int), score,
min_score)` triple, or the propagated exception. -/
noncomputable def compute_shift (yxz_base yxz_transform : List Point)
    (min_score : Option ℝ) (min_score_auto_param : ℝ)
    (shift_score_thresh : ℚ) (y_shifts x_shifts z_shifts : List ℚ)
    (y_widen x_widen z_widen : ℕ) (z_scale : ℚ) :
    Except String ((ℤ × ℤ × ℤ) × ℝ × ℝ) × List Point × List Point :=
  (exBind (get_best_shift (scaleZ z_scale yxz_base) (scaleZ z_scale yxz_transform)
      shift_score_thresh y_shifts x_shifts (z_shifts.map fun z => z * z_scale)
      none) fun g =>
    exBind (widen_phase (scaleZ z_scale yxz_base) (scaleZ z_scale yxz_transform)
        shift_score_thresh y_shifts x_shifts z_shifts z_scale
        y_widen x_widen z_widen g.shift g.score
        (msOf min_score g min_score_auto_param)
        (mesh_shifts y_shifts x_shifts (z_shifts.map fun z => z * z_scale)))
      fun w =>
      exBind (refine_phase (scaleZ z_scale yxz_base)
          (scaleZ z_scale yxz_transform) shift_score_thresh
          w.ys w.xs w.zs z_scale w.shift w.score
          (msOf min_score g min_score_auto_param)
          (mesh_shifts y_shifts x_shifts (z_shifts.map fun z => z * z_scale)))
        fun p =>
        .ok ((truncQ p.1.1, truncQ p.1.2.1, truncQ p.1.2.2), p.2,
          msOf min_score g min_score_auto_param),
   scaleZ z_scale yxz_base, scaleZ z_scale yxz_transform)

/-- The shift component of a `compute_shift` result (junk on an exception). -/
def csShift (r : Except String ((ℤ × ℤ × ℤ) × ℝ × ℝ)) : ℤ × ℤ × ℤ :=
  match r with
  | .ok v => v.1
  | .error _ => (0, 0, 0)

/-- The score component of a `compute_shift` result. -/
noncomputable def csScore (r : Except String ((ℤ × ℤ × ℤ) × ℝ × ℝ)) : ℝ :=
  match r with
  | .ok v => v.2.1
  | .error _ => 0

/-- The returned `min_score` of a `compute_shift` result. -/
noncomputable def csMin (r : Except String ((ℤ × ℤ × ℤ) × ℝ × ℝ)) : ℝ :=
  match r with
  | .ok v => v.2.2
  | .error _ => 0

/-- The best score of a `get_best_shift` result. -/
noncomputable def gbScore (r : Except String GBSOut) : ℝ :=
  match r with
  | .ok g => g.score
  | .error _ => 0

lemma exBind_ok {α β : Type} (a : α) (f : α → Except String β) :
    exBind (.ok a) f = f a := rfl

lemma exBind_error {α β : Type} (s : String) (f : α → Except String β) :
    exBind (.error s) f = .error s := rfl

lemma mem_setdiff2d {a b : List Point} {r : Point} :
    r ∈ setdiff2d a b ↔ r ∈ a ∧ r ∉ b := by
  simp [setdiff2d]

lemma argmaxIdx_lt : ∀ l : List ℝ, l ≠ [] → argmaxIdx l < l.length
  | [_], _ => by simp [argmaxIdx]
  | x :: y :: tl, _ => by
    have ih := argmaxIdx_lt (y :: tl) (by simp)
    by_cases hc : x < (y :: tl).getD (argmaxIdx (y :: tl)) 0
    · simp only [argmaxIdx, if_pos hc, List.length_cons]
      simp only [List.length_cons] at ih
      omega
    · simp only [argmaxIdx, if_neg hc, List.length_cons]
      omega

lemma argmaxIdx_max : ∀ (l : List ℝ) (i : ℕ), i < l.length →
    l.getD i 0 ≤ l.getD (argmaxIdx l) 0
  | [x], i, hi => by
    have : i = 0 := by simpa using Nat.lt_one_iff.mp (by simpa using hi)
    subst this
    simp [argmaxIdx]
  | x :: y :: tl, i, hi => by
    by_cases hc : x < (y :: tl).getD (argmaxIdx (y :: tl)) 0
    · simp only [argmaxIdx, if_pos hc]
      cases i with
      | zero => simpa [List.getD_cons_succ] using le_of_lt hc
      | succ j =>
        have hj : j < (y :: tl).length := by
          simpa [Nat.succ_lt_succ_iff] using hi
        simpa [List.getD_cons_succ] using argmaxIdx_max (y :: tl) j hj
    · simp only [argmaxIdx, if_neg hc]
      cases i with
      | zero => simp
      | succ j =>
        have hj : j < (y :: tl).length := by
          simpa [Nat.succ_lt_succ_iff] using hi
        have h1 := argmaxIdx_max (y :: tl) j hj
        have h2 : (y :: tl).getD (argmaxIdx (y :: tl)) 0 ≤ x := not_lt.mp hc
        simpa [List.getD_cons_succ] using le_trans h1 h2

/-- Full specification of a successful `get_best_shift` run: the returned
shift is a searched candidate achieving the maximum score, and the last two
components are the median and interquartile range of all searched scores. -/
lemma gbs_spec (base tr : List Point) (t : ℚ) (ys xs zs : List ℚ)
    (ig : Option (List Point)) (hb : base ≠ []) (ht : tr ≠ [])
    (hs : searched_shifts ys xs zs ig ≠ []) :
    ∃ g, get_best_shift base tr t ys xs zs ig = .ok g ∧
      g.shift ∈ searched_shifts ys xs zs ig ∧
      g.score = candidate_score base tr t g.shift ∧
      (∀ c ∈ searched_shifts ys xs zs ig,
        candidate_score base tr t c ≤ g.score) ∧
      g.med = npMedian
        ((searched_shifts ys xs zs ig).map (candidate_score base tr t)) ∧
      g.iqrv = sciIqr
        ((searched_shifts ys xs zs ig).map (candidate_score base tr t)) := by
  have hrun : get_best_shift base tr t ys xs zs ig =
      .ok ⟨(searched_shifts ys xs zs ig).getD
          (argmaxIdx ((searched_shifts ys xs zs ig).map
            (candidate_score base tr t))) ptZero,
        ((searched_shifts ys xs zs ig).map
            (candidate_score base tr t)).getD
          (argmaxIdx ((searched_shifts ys xs zs ig).map
            (candidate_score base tr t))) 0,
        npMedian ((searched_shifts ys xs zs ig).map
          (candidate_score base tr t)),
        sciIqr ((searched_shifts ys xs zs ig).map
          (candidate_score base tr t))⟩ := by
    rw [get_best_shift, if_neg ht, if_neg hb, if_neg hs]
  set L := searched_shifts ys xs zs ig with hL
  set sc := L.map (candidate_score base tr t) with hsc
  have hscne : sc ≠ [] := by
    intro h
    exact hs (by simpa [hsc] using List.map_eq_nil_iff.mp h)
  have hlen : sc.length = L.length := by simp [hsc]
  have hbi : argmaxIdx sc < L.length := by
    have := argmaxIdx_lt sc hscne
    omega
  refine ⟨_, hrun, ?_, ?_, ?_, rfl, rfl⟩
  · rw [List.getD_eq_getElem _ _ hbi]
    exact List.getElem_mem hbi
  · show sc.getD (argmaxIdx sc) 0 = candidate_score base tr t (L.getD (argmaxIdx sc) ptZero)
    rw [List.getD_eq_getElem _ _ (by omega : argmaxIdx sc < sc.length),
      List.getD_eq_getElem _ _ hbi]
    simp [hsc]
  · intro c hc
    obtain ⟨j, hj, hcj⟩ := List.mem_iff_getElem.mp hc
    have hjs : j < sc.length := by omega
    have := argmaxIdx_max sc j hjs
    rw [List.getD_eq_getElem _ _ hjs] at this
    have hmap : sc[j] = candidate_score base tr t c := by
      simp [hsc, hcj]
    rw [hmap] at this
    exact this

lemma sqDistQ_nonneg (p q : Point) : 0 ≤ sqDistQ p q := by
  unfold sqDistQ
  positivity

lemma nnSq_nonneg (p : Point) : ∀ l : List Point, 0 ≤ nnSq p l
  | [] => le_refl 0
  | [q] => sqDistQ_nonneg p q
  | q :: r :: tl => le_min (sqDistQ_nonneg p q) (nnSq_nonneg p (r :: tl))

lemma gauss_term_sqrt (t : ℚ) (c : ℝ) (hc : 0 ≤ c) :
    gauss_term t (Real.sqrt c) = Real.exp (-c / (2 * (t : ℝ) ^ 2)) := by
  unfold gauss_term
  rw [Real.sq_sqrt hc]

/-- The score contributed by a single-point base cloud against a
single-point target, in closed form. -/
lemma cand_score_single (p q : Point) (t : ℚ) (s : Point) :
    candidate_score [p] [q] t s =
      Real.exp (-((sqDistQ (addPt p s) q : ℚ) : ℝ) / (2 * (t : ℝ) ^ 2)) := by
  unfold candidate_score shift_score nn_dist
  simp only [List.map_cons, List.map_nil, List.sum_cons, List.sum_nil, add_zero]
  rw [show nnSq (addPt p s) [q] = sqDistQ (addPt p s) q from rfl]
  rw [gauss_term_sqrt t _ (by exact_mod_cast sqDistQ_nonneg (addPt p s) q)]

/-- Concrete-evaluation driver: if some searched candidate attains score `M`
and every searched candidate scores at most `M`, a successful run returns
score `M` at a searched candidate attaining it. -/
lemma gbs_eval (base tr : List Point) (t : ℚ) (ys xs zs : List ℚ)
    (ig : Option (List Point)) (hb : base ≠ []) (ht : tr ≠ [])
    (m : Point) (M : ℝ) (hm : m ∈ searched_shifts ys xs zs ig)
    (hM : candidate_score base tr t m = M)
    (hmax : ∀ c ∈ searched_shifts ys xs zs ig,
      candidate_score base tr t c ≤ M) :
    ∃ g, get_best_shift base tr t ys xs zs ig = .ok g ∧ g.score = M ∧
      g.shift ∈ searched_shifts ys xs zs ig ∧
      candidate_score base tr t g.shift = M := by
  obtain ⟨g, hg, hmem, hsc, hmax2, _, _⟩ :=
    gbs_spec base tr t ys xs zs ig hb ht (List.ne_nil_of_mem hm)
  have h1 : M ≤ g.score := hM ▸ hmax2 m hm
  have h2 : g.score ≤ M := hsc ▸ hmax g.shift hmem
  exact ⟨g, hg, le_antisymm h2 h1, hmem, hsc ▸ le_antisymm h2 h1⟩

lemma msOf_some (m : ℝ) (g : GBSOut) (k : ℝ) : msOf (some m) g k = m := rfl

lemma msOf_none (g : GBSOut) (k : ℝ) : msOf none g k = g.med + k * g.iqrv := rfl

/-- The coarse search of the C2 failing input: one base spot at the origin,
one (scaled) target spot at z = 2, candidate z offsets 0 and 2. -/
lemma evalC2coarse :
    ∃ g, get_best_shift [((0 : ℚ), 0, 0)] [((0 : ℚ), 0, 2)] 2 [0] [0] [0, 2]
        none = .ok g ∧ g.score = 1 ∧ g.shift = ((0 : ℚ), 0, 2) := by
  obtain ⟨g, hg, hsc, hmem, hcs⟩ :=
    gbs_eval [((0 : ℚ), 0, 0)] [((0 : ℚ), 0, 2)] 2 [0] [0] [0, 2] none
      (by simp) (by simp) ((0 : ℚ), 0, 2) 1
      (by simp [searched_shifts, mesh_shifts])
      (by
        rw [cand_score_single]
        norm_num [sqDistQ, addPt, Real.exp_zero])
      (by
        intro c hc
        simp [searched_shifts, mesh_shifts] at hc
        rcases hc with hc | hc
        · subst hc
          rw [cand_score_single, Real.exp_le_one_iff]
          norm_num [sqDistQ, addPt]
        · subst hc
          rw [cand_score_single]
          norm_num [sqDistQ, addPt, Real.exp_zero])
  refine ⟨g, hg, hsc, ?_⟩
  simp [searched_shifts, mesh_shifts] at hmem
  rcases hmem with hm0 | hm2
  · exfalso
    rw [hm0, cand_score_single, Real.exp_eq_one_iff] at hcs
    norm_num [sqDistQ, addPt] at hcs
  · exact hm2

/-- Full evaluation of `compute_shift` at the C2 failing input: base spot at
the origin, target spot at unscaled z = 1, `z_scale = 2`, `min_score = 1000`
so the refinement (and with it the z unscaling) is skipped. -/
lemma evalC2core :
    (compute_shift [((0 : ℚ), 0, 0)] [((0 : ℚ), 0, 1)] (some 1000) 1 2
        [0] [0] [0, 1] 0 0 0 2).1 = .ok ((0, 0, 2), 1, 1000) := by
  obtain ⟨g, hg, hsc, hshift⟩ := evalC2coarse
  have hbase : scaleZ 2 [((0 : ℚ), 0, 0)] = [((0 : ℚ), 0, 0)] := by
    norm_num [scaleZ]
  have htr : scaleZ 2 [((0 : ℚ), 0, 1)] = [((0 : ℚ), 0, 2)] := by
    norm_num [scaleZ]
  have hmap : List.map (fun z => z * 2) [(0 : ℚ), 1] = [0, 2] := by
    norm_num
  simp only [compute_shift, hbase, htr, hmap]
  rw [hg, exBind_ok, msOf_some]
  rw [show widen_phase [((0 : ℚ), 0, 0)] [((0 : ℚ), 0, 2)] 2 [0] [0] [0, 1] 2
      0 0 0 g.shift g.score 1000 (mesh_shifts [0] [0] [0, 2]) =
      .ok ⟨[0], [0], [0, 1], g.shift, g.score⟩ from by
    rw [widen_phase, if_neg]
    simp]
  rw [exBind_ok]
  rw [show refine_phase [((0 : ℚ), 0, 0)] [((0 : ℚ), 0, 2)] 2 [0] [0] [0, 1] 2
      g.shift g.score 1000 (mesh_shifts [0] [0] [0, 2]) =
      .ok (g.shift, g.score) from by
    rw [refine_phase, if_neg]
    rw [hsc]
    norm_num]
  rw [exBind_ok, hshift, hsc]
  norm_num [truncQ]

/-- C2: the claim states that the returned best shift's z component is the
winning candidate's scaled z offset divided by `z_scale`, regardless of
whether the refinement phase was entered.  The code only divides by
`z_scale` inside the refinement branch (line 180 of shift.py sits inside
`if score > min_score`), so on this input — whose winning candidate has
scaled z offset 2 and `z_scale = 2`, with the refinement skipped because
`min_score = 1000` — the code returns z = 2 while the claim (and the
function's own docstring) require z = 2 / 2 = 1. -/
theorem compute_shift_z_not_unscaled_without_refine :
    csShift ((compute_shift [((0 : ℚ), 0, 0)] [((0 : ℚ), 0, 1)] (some 1000) 1 2
        [0] [0] [0, 1] 0 0 0 2).1) = (0, 0, 2) ∧
    truncQ ((2 : ℚ) / 2) = 1 ∧ ((0, 0, 2) : ℤ × ℤ × ℤ).2.2 ≠ 1 := by
  refine ⟨?_, ?_, by decide⟩
  · rw [evalC2core]
    rfl
  · norm_num [truncQ]

/-- C3 counterexample: `compute_shift` mutates the caller's arrays in place.
With `z_scale = 2` the base cloud `[(0, 0, 1)]` reads `[(0, 0, 2)]` after
the call, not its original value. -/
theorem compute_shift_mutates_inputs :
    (compute_shift [((0 : ℚ), 0, 1)] [((0 : ℚ), 0, 1)] (some 0) 0 2
        [0] [0] [0] 0 0 0 2).2.1 ≠ [((0 : ℚ), 0, 1)] := by
  show scaleZ 2 [((0 : ℚ), 0, 1)] ≠ [((0 : ℚ), 0, 1)]
  norm_num [scaleZ]

/-- C3 amended: after any call to `compute_shift` the caller's arrays hold
the z-scaled coordinates (the z column multiplied by `z_scale` in place,
lines 150-151); they are unchanged exactly on calls with `z_scale = 1`. -/
theorem compute_shift_input_arrays_scaled
    (yxz_base yxz_transform : List Point) (min_score : Option ℝ)
    (msap : ℝ) (t : ℚ) (ys xs zs : List ℚ) (yw xw zw : ℕ) (zsc : ℚ) :
    (compute_shift yxz_base yxz_transform min_score msap t ys xs zs
        yw xw zw zsc).2.1 = scaleZ zsc yxz_base ∧
    (compute_shift yxz_base yxz_transform min_score msap t ys xs zs
        yw xw zw zsc).2.2 = scaleZ zsc yxz_transform ∧
    scaleZ 1 yxz_base = yxz_base ∧ scaleZ 1 yxz_transform = yxz_transform := by
  refine ⟨rfl, rfl, ?_, ?_⟩ <;>
    simp [scaleZ]

/-- C4 counterexample: on an empty base cloud the search fails, but with the
nearest-neighbour library's `ValueError`, not with a `DegenerateInputError`
(no such error type exists anywhere in the code). -/
theorem empty_cloud_value_error_not_degenerate :
    get_best_shift ([] : List Point) [((0 : ℚ), 0, 0)] 2 [0] [0] [0] none =
      .error "ValueError" ∧ "ValueError" ≠ "DegenerateInputError" := by
  constructor
  · rw [get_best_shift]
    simp
  · decide

/-- C4 amended: whenever either point cloud is empty, `get_best_shift`
fails with the `ValueError` raised by the nearest-neighbour fit or query on
an empty array, and `compute_shift` propagates the same error (fatal for the
call). -/
theorem empty_cloud_raises_value_error (base tr : List Point) (t : ℚ)
    (ys xs zs : List ℚ) (ig : Option (List Point)) (min_score : Option ℝ)
    (msap : ℝ) (yw xw zw : ℕ) (zsc : ℚ)
    (h : base = [] ∨ tr = []) :
    get_best_shift base tr t ys xs zs ig = .error "ValueError" ∧
    (compute_shift base tr min_score msap t ys xs zs yw xw zw zsc).1 =
      .error "ValueError" := by
  have hgen : ∀ (b2 t2 : List Point) (ys2 xs2 zs2 : List ℚ)
      (ig2 : Option (List Point)), b2 = [] ∨ t2 = [] →
      get_best_shift b2 t2 t ys2 xs2 zs2 ig2 = .error "ValueError" := by
    intro b2 t2 ys2 xs2 zs2 ig2 h2
    rcases h2 with h2 | h2 <;> subst h2 <;> rw [get_best_shift]
    · by_cases htr : t2 = []
      · rw [if_pos htr]
      · rw [if_neg htr, if_pos rfl]
    · rw [if_pos rfl]
  have hscale : scaleZ zsc base = [] ∨ scaleZ zsc tr = [] := by
    rcases h with h | h <;> subst h
    · exact Or.inl rfl
    · exact Or.inr rfl
  refine ⟨hgen base tr ys xs zs ig h, ?_⟩
  show exBind (get_best_shift (scaleZ zsc base) (scaleZ zsc tr) t ys xs
      (zs.map fun z => z * zsc) none) _ = _
  rw [hgen (scaleZ zsc base) (scaleZ zsc tr) ys xs (zs.map fun z => z * zsc)
    none hscale, exBind_error]

/-- C4 amended, witness at a concrete empty base cloud. -/
theorem empty_cloud_raises_value_error_witness :
    (([] : List Point) = [] ∨ [((0 : ℚ), 0, 0)] = []) ∧
    (compute_shift ([] : List Point) [((0 : ℚ), 0, 0)] none 5 2 [0] [0] [0]
        0 0 0 1).1 = .error "ValueError" :=
  ⟨Or.inl rfl,
    (empty_cloud_raises_value_error ([] : List Point) [((0 : ℚ), 0, 0)] 2
      [0] [0] [0] none none 5 0 0 0 1 (Or.inl rfl)).2⟩

/-- A singleton axis with a nonzero scale aborts the extension: the mean
spacing is the nan of an empty mean and `np.arange` raises `ValueError`. -/
lemma extend_array_single_err (q : ℚ) (s : ℤ) (hs : s ≠ 0) (d : String) :
    extend_array [q] s d = .error "ValueError" := by
  rw [extend_array, if_neg hs, if_neg (by simp),
    if_pos (show [q].length = 1 from rfl)]

/-- C10 counterexample: the claim says that for a nonzero `extend_scale` an
unrecognised direction raises `ValueError`; on a zero-mean-spacing array the
`np.arange` arm at line 37 raises `ZeroDivisionError` before the direction
is ever inspected. -/
theorem extend_array_zero_spacing_zero_division :
    extend_array [(0 : ℚ), 0] 1 "junk" = .error "ZeroDivisionError" ∧
    "ZeroDivisionError" ≠ "ValueError" := by
  constructor
  · rw [extend_array, if_neg (by decide), if_neg (by simp),
      if_neg (show ¬([(0 : ℚ), 0].length = 1) from by simp),
      if_pos (show meanStep [(0 : ℚ), 0] = 0 from by
        norm_num [meanStep, diffList])]
  · decide

/-- C10 amended: `extend_array` returns the input unchanged for
`extend_scale = 0` whatever the direction string is, before anything else
runs.  For a nonzero `extend_scale` the extension arms are computed first
and raise on degenerate arrays — `ValueError` on an empty or a singleton
array (for any direction, valid ones included), `ZeroDivisionError` on a
zero-mean-spacing array — and only on an array with at least two values and
nonzero mean spacing does an unrecognised direction raise `ValueError`. -/
theorem extend_array_direction_validation :
    (∀ (a : List ℚ) (d : String), extend_array a 0 d = .ok a) ∧
    (∀ (s : ℤ) (d : String), s ≠ 0 →
      extend_array [] s d = .error "ValueError") ∧
    (∀ (q : ℚ) (s : ℤ) (d : String), s ≠ 0 →
      extend_array [q] s d = .error "ValueError") ∧
    (∀ (a : List ℚ) (s : ℤ) (d : String), s ≠ 0 → a ≠ [] → a.length ≠ 1 →
      meanStep a = 0 → extend_array a s d = .error "ZeroDivisionError") ∧
    (∀ (a : List ℚ) (s : ℤ) (d : String), s ≠ 0 → a ≠ [] → a.length ≠ 1 →
      meanStep a ≠ 0 → d ≠ "below" → d ≠ "above" → d ≠ "both" →
      extend_array a s d = .error "ValueError") := by
  refine ⟨?_, ?_, ?_, ?_, ?_⟩
  · intro a d
    rw [extend_array, if_pos rfl]
  · intro s d hs
    rw [extend_array, if_neg hs, if_pos rfl]
  · intro q s d hs
    exact extend_array_single_err q s hs d
  · intro a s d hs he h1 hm
    rw [extend_array, if_neg hs, if_neg he, if_neg h1, if_pos hm]
  · intro a s d hs he h1 hm hb ha hbo
    rw [extend_array, if_neg hs, if_neg he, if_neg h1, if_neg hm, if_neg hb,
      if_neg ha, if_neg hbo]

/-- C10 amended, witness: scale 0 with a junk direction; then with scale 1
an empty array, a singleton array with the valid direction both, a
zero-spacing array, and a well-formed array with a junk direction. -/
theorem extend_array_direction_validation_witness :
    extend_array [(0 : ℚ)] 0 "junk" = .ok [(0 : ℚ)] ∧
    ((1 : ℤ) ≠ 0 ∧ extend_array ([] : List ℚ) 1 "junk" = .error "ValueError") ∧
    extend_array [(5 : ℚ)] 1 "both" = .error "ValueError" ∧
    (meanStep [(0 : ℚ), 0] = 0 ∧
      extend_array [(0 : ℚ), 0] 1 "both" = .error "ZeroDivisionError") ∧
    (meanStep [(0 : ℚ), 4] ≠ 0 ∧ ("junk" : String) ≠ "below" ∧
      ("junk" : String) ≠ "above" ∧ ("junk" : String) ≠ "both" ∧
      extend_array [(0 : ℚ), 4] 1 "junk" = .error "ValueError") := by
  have hm0 : meanStep [(0 : ℚ), 0] = 0 := by norm_num [meanStep, diffList]
  have hm4 : meanStep [(0 : ℚ), 4] ≠ 0 := by norm_num [meanStep, diffList]
  exact ⟨extend_array_direction_validation.1 [(0 : ℚ)] "junk",
    ⟨by decide, extend_array_direction_validation.2.1 1 "junk" (by decide)⟩,
    extend_array_direction_validation.2.2.1 5 1 "both" (by decide),
    ⟨hm0, extend_array_direction_validation.2.2.2.1 [(0 : ℚ), 0] 1 "both"
      (by decide) (by simp) (by simp) hm0⟩,
    ⟨hm4, by decide, by decide, by decide,
      extend_array_direction_validation.2.2.2.2 [(0 : ℚ), 4] 1 "junk"
        (by decide) (by simp) (by simp) hm4 (by decide) (by decide)
        (by decide)⟩⟩

lemma gauss_term_zero (t : ℚ) : gauss_term t 0 = 1 := by
  unfold gauss_term
  norm_num

lemma gauss_term_le_one (t : ℚ) (d : ℝ) : gauss_term t d ≤ 1 := by
  unfold gauss_term
  rw [Real.exp_le_one_iff]
  by_cases h2 : (t : ℝ) = 0
  · rw [h2]
    norm_num
  · apply div_nonpos_of_nonpos_of_nonneg
    · simp [sq_nonneg]
    · positivity

lemma gauss_term_strict_anti (t : ℚ) (ht : 0 < t) (d1 d2 : ℝ)
    (h1 : 0 ≤ d1) (h12 : d1 < d2) : gauss_term t d2 < gauss_term t d1 := by
  unfold gauss_term
  rw [Real.exp_lt_exp, neg_div, neg_div, neg_lt_neg_iff]
  have htR : (0 : ℝ) < 2 * (t : ℝ) ^ 2 := by
    have : (0 : ℝ) < (t : ℝ) := by exact_mod_cast ht
    positivity
  have hsq : d1 ^ 2 < d2 ^ 2 := pow_lt_pow_left₀ h12 h1 (by norm_num)
  exact div_lt_div_of_pos_right hsq htR

lemma gauss_term_mono (t : ℚ) (d1 d2 : ℝ) (h1 : 0 ≤ d1) (h12 : d1 ≤ d2) :
    gauss_term t d2 ≤ gauss_term t d1 := by
  unfold gauss_term
  rw [Real.exp_le_exp, neg_div, neg_div, neg_le_neg_iff]
  have hsq : d1 ^ 2 ≤ d2 ^ 2 := pow_le_pow_left₀ h1 h12 2
  by_cases h2 : (t : ℝ) = 0
  · rw [h2]
    norm_num
  · have htR : (0 : ℝ) < 2 * (t : ℝ) ^ 2 := by positivity
    gcongr

lemma shift_score_le_of_forall2 (t : ℚ) :
    ∀ (l1 l2 : List ℝ), List.Forall₂ (fun a b => 0 ≤ a ∧ a ≤ b) l1 l2 →
      shift_score l2 t ≤ shift_score l1 t := by
  intro l1 l2 h
  induction h with
  | nil => exact le_refl _
  | cons hab htail ih =>
    unfold shift_score at ih ⊢
    simp only [List.map_cons, List.sum_cons]
    exact add_le_add (gauss_term_mono t _ _ hab.1 hab.2) ih

/-- C9: the per-point Gaussian contribution is maximal at distance 0 and
strictly decreasing in the distance, so `shift_score` over a fixed number of
points is maximal when every nearest-neighbour distance is 0 and strictly
decreases when any distance increases. -/
theorem shift_score_gauss_monotone (t : ℚ) (ht : 0 < t) :
    (∀ d : ℝ, gauss_term t d ≤ gauss_term t 0) ∧
    (∀ d1 d2 : ℝ, 0 ≤ d1 → d1 < d2 → gauss_term t d2 < gauss_term t d1) ∧
    (∀ l : List ℝ, shift_score l t ≤ shift_score (List.replicate l.length 0) t) ∧
    (∀ l1 l2 : List ℝ, List.Forall₂ (fun a b => 0 ≤ a ∧ a ≤ b) l1 l2 →
      l1 ≠ l2 → shift_score l2 t < shift_score l1 t) := by
  refine ⟨?_, gauss_term_strict_anti t ht, ?_, ?_⟩
  · intro d
    rw [gauss_term_zero]
    exact gauss_term_le_one t d
  · intro l
    unfold shift_score
    rw [List.map_replicate, gauss_term_zero, List.sum_replicate]
    have h1 : (l.map (gauss_term t)).sum ≤ (l.map (gauss_term t)).length • (1 : ℝ) := by
      apply List.sum_le_card_nsmul
      intro x hx
      obtain ⟨d, _, hd⟩ := List.mem_map.mp hx
      rw [← hd]
      exact gauss_term_le_one t d
    simpa using h1
  · intro l1 l2 h hne
    induction h with
    | nil => exact absurd rfl hne
    | cons hab htail ih =>
      rename_i a b l1' l2'
      unfold shift_score
      simp only [List.map_cons, List.sum_cons]
      by_cases hab2 : a = b
      · subst hab2
        have hne' : l1' ≠ l2' := by
          intro hcontra
          exact hne (by rw [hcontra])
        have := ih hne'
        unfold shift_score at this
        linarith
      · have hlt : a < b := lt_of_le_of_ne hab.2 hab2
        have h1 : gauss_term t b < gauss_term t a :=
          gauss_term_strict_anti t ht a b hab.1 hlt
        have h2 : shift_score l2' t ≤ shift_score l1' t :=
          shift_score_le_of_forall2 t l1' l2' htail
        unfold shift_score at h2
        linarith

/-- C9 witness at `thresh = 2`, distances 0 and 1. -/
theorem shift_score_gauss_monotone_witness :
    (0 : ℚ) < 2 ∧ gauss_term 2 1 < gauss_term 2 0 :=
  ⟨by decide, (shift_score_gauss_monotone 2 (by decide)).2.1 0 1 le_rfl zero_lt_one⟩

/-- A row lies in the meshgrid exactly when each coordinate lies in the
corresponding axis sequence: the mesh is the Cartesian product. -/
lemma mem_mesh_shifts {ys xs zs : List ℚ} {c : Point} :
    c ∈ mesh_shifts ys xs zs ↔ c.1 ∈ ys ∧ c.2.1 ∈ xs ∧ c.2.2 ∈ zs := by
  unfold mesh_shifts
  simp only [List.mem_flatMap, List.mem_map]
  constructor
  · rintro ⟨z, hz, y, hy, x, hx, rfl⟩
    exact ⟨hy, hx, hz⟩
  · rintro ⟨hy, hx, hz⟩
    exact ⟨c.2.2, hz, c.1, hy, c.2.1, hx, rfl⟩

/-- Membership in the searched candidate set: the Cartesian product of the
three axis sequences, minus the ignored shifts when they are supplied. -/
lemma mem_searched_shifts {ys xs zs : List ℚ} {ig : Option (List Point)}
    {c : Point} :
    c ∈ searched_shifts ys xs zs ig ↔
      (c.1 ∈ ys ∧ c.2.1 ∈ xs ∧ c.2.2 ∈ zs) ∧
      (∀ igl, ig = some igl → c ∉ igl) := by
  cases ig with
  | none =>
    simp only [searched_shifts, mem_mesh_shifts]
    constructor
    · intro h
      exact ⟨h, by intro igl h2 _; cases h2⟩
    · intro h
      exact h.1
  | some igl =>
    simp only [searched_shifts, mem_setdiff2d, mem_mesh_shifts]
    constructor
    · rintro ⟨h1, h2⟩
      refine ⟨h1, ?_⟩
      rintro igl2 hig
      cases hig
      exact h2
    · rintro ⟨h1, h2⟩
      exact ⟨h1, h2 igl rfl⟩

/-- C1: for nonempty clouds and a nonempty searched grid, `get_best_shift`
scores every candidate of the Cartesian product of the three axis sequences
minus the ignored shifts with the Gaussian nearest-neighbour sum
`candidate_score`, and returns a candidate attaining the maximum score
together with the median and the interquartile range of the scores over all
searched candidates. -/
theorem get_best_shift_correct (base tr : List Point) (t : ℚ)
    (ys xs zs : List ℚ) (ig : Option (List Point)) (hb : base ≠ [])
    (ht : tr ≠ []) (_hthr : 0 < t) (hs : searched_shifts ys xs zs ig ≠ []) :
    ∃ g, get_best_shift base tr t ys xs zs ig = .ok g ∧
      g.shift ∈ searched_shifts ys xs zs ig ∧
      g.score = candidate_score base tr t g.shift ∧
      (∀ c ∈ searched_shifts ys xs zs ig,
        candidate_score base tr t c ≤ g.score) ∧
      g.med = npMedian
        ((searched_shifts ys xs zs ig).map (candidate_score base tr t)) ∧
      g.iqrv = sciIqr
        ((searched_shifts ys xs zs ig).map (candidate_score base tr t)) ∧
      (∀ c : Point, c ∈ searched_shifts ys xs zs ig ↔
        (c.1 ∈ ys ∧ c.2.1 ∈ xs ∧ c.2.2 ∈ zs) ∧
        (∀ igl, ig = some igl → c ∉ igl)) := by
  obtain ⟨g, hg, h1, h2, h3, h4, h5⟩ := gbs_spec base tr t ys xs zs ig hb ht hs
  exact ⟨g, hg, h1, h2, h3, h4, h5, fun c => mem_searched_shifts⟩

/-- C1 witness at a one-point cloud and a single-candidate grid. -/
theorem get_best_shift_correct_witness :
    (0 : ℚ) < 2 ∧
    ∃ g, get_best_shift [((0 : ℚ), 0, 0)] [((0 : ℚ), 0, 0)] 2 [0] [0] [0]
        none = .ok g ∧ g.shift ∈ searched_shifts [0] [0] [0] none := by
  refine ⟨by decide, ?_⟩
  obtain ⟨g, hg, hmem, -, -, -, -, -⟩ :=
    get_best_shift_correct [((0 : ℚ), 0, 0)] [((0 : ℚ), 0, 0)] 2 [0] [0] [0]
      none (by simp) (by simp) (by decide) (by simp [searched_shifts, mesh_shifts])
  exact ⟨g, hg, hmem⟩

/-- A successful `get_best_shift` run determines the median and interquartile
fields of its output. -/
lemma gbs_ok_med_iqr (base tr : List Point) (t : ℚ) (ys xs zs : List ℚ)
    (ig : Option (List Point)) (g : GBSOut)
    (hok : get_best_shift base tr t ys xs zs ig = .ok g) :
    g.med = npMedian ((searched_shifts ys xs zs ig).map
      (candidate_score base tr t)) ∧
    g.iqrv = sciIqr ((searched_shifts ys xs zs ig).map
      (candidate_score base tr t)) := by
  rw [get_best_shift] at hok
  by_cases h1 : tr = []
  · rw [if_pos h1] at hok
    cases hok
  rw [if_neg h1] at hok
  by_cases h2 : base = []
  · rw [if_pos h2] at hok
    cases hok
  rw [if_neg h2] at hok
  by_cases h3 : searched_shifts ys xs zs ig = []
  · rw [if_pos h3] at hok
    cases hok
  rw [if_neg h3] at hok
  injection hok with h4
  rw [← h4]
  exact ⟨rfl, rfl⟩

/-- The returned `min_score` slot of the `compute_shift` tail is the value
that was threaded through the phases. -/
lemma compute_tail_min (W : Except String WidenOut)
    (f : WidenOut → Except String (Point × ℝ)) (ms : ℝ)
    (r : (ℤ × ℤ × ℤ) × ℝ × ℝ)
    (h : exBind W (fun w => exBind (f w) fun p =>
        .ok ((truncQ p.1.1, truncQ p.1.2.1, truncQ p.1.2.2), p.2, ms)) =
      .ok r) : r.2.2 = ms := by
  cases W with
  | error e =>
    rw [exBind_error] at h
    cases h
  | ok w =>
    rw [exBind_ok] at h
    cases hf : f w with
    | error e =>
      rw [hf, exBind_error] at h
      cases h
    | ok p =>
      rw [hf, exBind_ok] at h
      injection h with h2
      rw [← h2]

/-- C7: when `min_score` is `None`, the value used for the significance
check and returned as the third component is the median of the coarse-grid
scores plus `min_score_auto_param` times their interquartile range: the call
behaves exactly as if the caller had passed that value, the coarse output's
median/iqr fields are the median and interquartile range of the coarse
searched scores, and any returned triple carries that value as `min_score`. -/
theorem auto_min_score_median_iqr (base tr : List Point) (msap : ℝ) (t : ℚ)
    (ys xs zs : List ℚ) (yw xw zw : ℕ) (zsc : ℚ) (g : GBSOut)
    (hok : get_best_shift (scaleZ zsc base) (scaleZ zsc tr) t ys xs
        (zs.map fun z => z * zsc) none = .ok g) :
    (compute_shift base tr none msap t ys xs zs yw xw zw zsc).1 =
      (compute_shift base tr (some (g.med + msap * g.iqrv)) msap t ys xs zs
        yw xw zw zsc).1 ∧
    g.med = npMedian ((searched_shifts ys xs (zs.map fun z => z * zsc)
      none).map (candidate_score (scaleZ zsc base) (scaleZ zsc tr) t)) ∧
    g.iqrv = sciIqr ((searched_shifts ys xs (zs.map fun z => z * zsc)
      none).map (candidate_score (scaleZ zsc base) (scaleZ zsc tr) t)) ∧
    (∀ r, (compute_shift base tr none msap t ys xs zs yw xw zw zsc).1 =
      .ok r → r.2.2 = g.med + msap * g.iqrv) := by
  obtain ⟨hmed, hiqr⟩ := gbs_ok_med_iqr _ _ _ _ _ _ _ g hok
  refine ⟨?_, hmed, hiqr, ?_⟩
  · show exBind _ _ = exBind _ _
    rw [hok, exBind_ok, exBind_ok, msOf_none, msOf_some]
  · intro r hr
    have hr2 : exBind (get_best_shift (scaleZ zsc base) (scaleZ zsc tr) t ys
        xs (zs.map fun z => z * zsc) none) _ = .ok r := hr
    rw [hok, exBind_ok] at hr2
    exact compute_tail_min _ _ _ r hr2

/-- A one-element sorted list is itself. -/
lemma sortR_singleton (x : ℝ) : sortR [x] = [x] := by
  simp [sortR]

lemma npMedian_singleton (x : ℝ) : npMedian [x] = x := by
  rw [npMedian]
  simp [sortR_singleton]

lemma percentileLin_singleton (x : ℝ) (q : ℚ) : percentileLin [x] q = x := by
  rw [percentileLin]
  simp [sortR_singleton]

lemma sciIqr_singleton (x : ℝ) : sciIqr [x] = 0 := by
  rw [sciIqr, percentileLin_singleton, percentileLin_singleton, sub_self]

/-- Full evaluation of the trivial one-candidate search: single coincident
spots, one zero candidate shift. -/
lemma gbs_singleton :
    get_best_shift [((0 : ℚ), 0, 0)] [((0 : ℚ), 0, 0)] 2 [0] [0] [0] none =
      .ok ⟨((0 : ℚ), 0, 0), 1, 1, 0⟩ := by
  have hcs : candidate_score [((0 : ℚ), 0, 0)] [((0 : ℚ), 0, 0)] 2
      ((0 : ℚ), 0, 0) = 1 := by
    rw [cand_score_single]
    norm_num [sqDistQ, addPt, Real.exp_zero]
  have hsearch : searched_shifts [0] [0] [0] none = [((0 : ℚ), 0, 0)] := by
    simp [searched_shifts, mesh_shifts]
  rw [get_best_shift, if_neg (by simp), if_neg (by simp), if_neg (by
    rw [hsearch]
    simp)]
  rw [hsearch]
  simp only [List.map_cons, List.map_nil, hcs]
  rw [show argmaxIdx [1] = 0 from rfl]
  simp only [List.getD_cons_zero]
  rw [npMedian_singleton, sciIqr_singleton]

/-- C7 witness: coincident one-point clouds, a single candidate, and
`min_score_auto_param = 3`; the coarse stats are median 1, iqr 0. -/
theorem auto_min_score_median_iqr_witness :
    get_best_shift (scaleZ 1 [((0 : ℚ), 0, 0)]) (scaleZ 1 [((0 : ℚ), 0, 0)])
      2 [0] [0] ([0].map fun z => z * 1) none = .ok ⟨((0 : ℚ), 0, 0), 1, 1, 0⟩ ∧
    (compute_shift [((0 : ℚ), 0, 0)] [((0 : ℚ), 0, 0)] none 3 2 [0] [0] [0]
        0 0 0 1).1 =
      (compute_shift [((0 : ℚ), 0, 0)] [((0 : ℚ), 0, 0)]
        (some ((GBSOut.mk ((0 : ℚ), 0, 0) 1 1 0).med +
          3 * (GBSOut.mk ((0 : ℚ), 0, 0) 1 1 0).iqrv)) 3 2 [0] [0] [0]
        0 0 0 1).1 := by
  have harg : get_best_shift (scaleZ 1 [((0 : ℚ), 0, 0)])
      (scaleZ 1 [((0 : ℚ), 0, 0)]) 2 [0] [0] ([0].map fun z => z * 1) none =
      .ok ⟨((0 : ℚ), 0, 0), 1, 1, 0⟩ := by
    rw [show scaleZ 1 [((0 : ℚ), 0, 0)] = [((0 : ℚ), 0, 0)] from by
        norm_num [scaleZ],
      show List.map (fun z => z * 1) [(0 : ℚ)] = [0] from by norm_num]
    exact gbs_singleton
  exact ⟨harg,
    (auto_min_score_median_iqr [((0 : ℚ), 0, 0)] [((0 : ℚ), 0, 0)] 3 2
      [0] [0] [0] 0 0 0 1 ⟨((0 : ℚ), 0, 0), 1, 1, 0⟩ harg).1⟩

lemma arangePts_succ (a0 s : ℚ) (n : ℕ) :
    arangePts a0 s (n + 1) = a0 :: arangePts (a0 + s) s n := by
  unfold arangePts
  rw [List.range_succ_eq_map]
  simp only [List.map_cons, List.map_map]
  congr 1
  · norm_num
  · apply List.map_congr_left
    intro k _
    simp only [Function.comp_apply, Nat.succ_eq_add_one]
    push_cast
    ring

lemma arangePts_length (a0 s : ℚ) (n : ℕ) : (arangePts a0 s n).length = n := by
  simp [arangePts]

lemma diffList_arangePts (s : ℚ) :
    ∀ (n : ℕ) (a0 : ℚ), diffList (arangePts a0 s (n + 2)) = List.replicate (n + 1) s := by
  intro n
  induction n with
  | zero =>
    intro a0
    show diffList (arangePts a0 s 2) = [s]
    rw [show arangePts a0 s 2 = [a0, a0 + s] from by
      rw [show (2 : ℕ) = 1 + 1 from rfl, arangePts_succ]
      simp [arangePts, List.range_succ]]
    simp [diffList]
  | succ m ih =>
    intro a0
    have h2 : arangePts (a0 + s) s (m + 2) = (a0 + s) ::
        arangePts (a0 + s + s) s (m + 1) := by
      rw [show m + 2 = (m + 1) + 1 from rfl, arangePts_succ]
    rw [show m + 1 + 2 = (m + 2) + 1 from rfl, arangePts_succ, h2]
    show (a0 + s - a0) :: diffList ((a0 + s) :: arangePts (a0 + s + s) s (m + 1)) = _
    rw [← h2, ih (a0 + s), show a0 + s - a0 = s from by ring]
    rfl

lemma meanStep_arangePts (a0 s : ℚ) (n : ℕ) (hn : 2 ≤ n) :
    meanStep (arangePts a0 s n) = s := by
  obtain ⟨m, rfl⟩ : ∃ m, n = m + 2 := ⟨n - 2, by omega⟩
  unfold meanStep
  rw [diffList_arangePts, arangePts_length, List.sum_replicate, nsmul_eq_mul]
  rw [show ((m + 2 : ℕ) : ℚ) - 1 = ((m : ℚ) + 1) from by push_cast; ring]
  rw [show ((m + 1 : ℕ) : ℚ) = ((m : ℚ) + 1) from by push_cast; ring]
  exact mul_div_cancel_left₀ s (by positivity)

lemma listMinQ_arangePts (s : ℚ) (hs : 0 < s) :
    ∀ (n : ℕ) (a0 : ℚ), 1 ≤ n → listMinQ (arangePts a0 s n) = a0 := by
  intro n
  induction n with
  | zero => intro a0 h; omega
  | succ m ih =>
    intro a0 _
    rw [arangePts_succ]
    cases m with
    | zero => rfl
    | succ k =>
      rw [show arangePts (a0 + s) s (k + 1) = (a0 + s) ::
          arangePts (a0 + s + s) s k from arangePts_succ (a0 + s) s k]
      show min a0 (listMinQ ((a0 + s) :: arangePts (a0 + s + s) s k)) = a0
      rw [show (a0 + s) :: arangePts (a0 + s + s) s k =
          arangePts (a0 + s) s (k + 1) from (arangePts_succ (a0 + s) s k).symm]
      rw [ih (a0 + s) (by omega)]
      exact min_eq_left (by linarith)

lemma listMaxQ_arangePts (s : ℚ) (hs : 0 < s) :
    ∀ (n : ℕ) (a0 : ℚ), 1 ≤ n →
      listMaxQ (arangePts a0 s n) = a0 + ((n : ℚ) - 1) * s := by
  intro n
  induction n with
  | zero => intro a0 h; omega
  | succ m ih =>
    intro a0 _
    rw [arangePts_succ]
    cases m with
    | zero =>
      show a0 = a0 + (((0 + 1 : ℕ) : ℚ) - 1) * s
      push_cast
      ring
    | succ k =>
      rw [show arangePts (a0 + s) s (k + 1) = (a0 + s) ::
          arangePts (a0 + s + s) s k from arangePts_succ (a0 + s) s k]
      show max a0 (listMaxQ ((a0 + s) :: arangePts (a0 + s + s) s k)) = _
      rw [show (a0 + s) :: arangePts (a0 + s + s) s k =
          arangePts (a0 + s) s (k + 1) from (arangePts_succ (a0 + s) s k).symm]
      rw [ih (a0 + s) (by omega)]
      rw [max_eq_right (by
        have hk : (0 : ℚ) ≤ (k : ℚ) := by positivity
        nlinarith)]
      push_cast
      ring

lemma arangeQ_eq_arangePts (start stop step : ℚ) (n : ℕ)
    (h : ⌈(stop - start) / step⌉ = (n : ℤ)) :
    arangeQ start stop step = arangePts start step n := by
  unfold arangeQ arangePts
  rw [h]
  have h2 : (max 0 ((n : ℤ))).toNat = n := by
    rw [max_eq_right (by positivity)]
    exact Int.toNat_natCast n
  rw [h2]

lemma arangePts_append (a0 s : ℚ) (m k : ℕ) :
    arangePts a0 s m ++ arangePts (a0 + m * s) s k = arangePts a0 s (m + k) := by
  unfold arangePts
  rw [List.range_add, List.map_append, List.map_map]
  congr 1
  apply List.map_congr_left
  intro i _
  simp only [Function.comp_apply]
  push_cast
  ring

lemma ext_below_arangePts (a0 s : ℚ) (hs : 0 < s) (n : ℕ) (hn : 2 ≤ n)
    (w : ℕ) :
    ext_below (arangePts a0 s n) w = arangePts (a0 - w * s) s w := by
  unfold ext_below
  rw [meanStep_arangePts a0 s n hn, listMinQ_arangePts s hs n a0 (by omega)]
  apply arangeQ_eq_arangePts
  rw [show a0 - (a0 - (w : ℤ) * s) = (w : ℚ) * s from by push_cast; ring]
  rw [mul_div_assoc, div_self (ne_of_gt hs), mul_one]
  exact Int.ceil_natCast w

lemma ext_above_arangePts (a0 s : ℚ) (hs : 0 < s) (n : ℕ) (hn : 2 ≤ n)
    (w : ℕ) :
    ext_above (arangePts a0 s n) w = arangePts (a0 + n * s) s w := by
  unfold ext_above
  rw [meanStep_arangePts a0 s n hn, listMaxQ_arangePts s hs n a0 (by omega)]
  rw [show a0 + ((n : ℚ) - 1) * s + s = a0 + n * s from by ring]
  rw [show a0 + ((n : ℚ) - 1) * s + ((w : ℤ) : ℚ) * s + s / 2 =
      a0 + (n : ℚ) * s + ((w : ℚ) - 1 / 2) * s from by push_cast; ring]
  apply arangeQ_eq_arangePts
  rw [show a0 + (n : ℚ) * s + ((w : ℚ) - 1 / 2) * s - (a0 + (n : ℚ) * s) =
      ((w : ℚ) - 1 / 2) * s from by ring]
  rw [mul_div_assoc, div_self (ne_of_gt hs), mul_one]
  rw [Int.ceil_eq_iff]
  refine ⟨by push_cast; norm_num, by push_cast; norm_num⟩

/-- Symmetric extension: on a uniform ascending grid of `n ≥ 2` values with
step `s > 0`, `extend_array(..., w, 'both')` passes all the degenerate-array
checks and appends exactly `w` values below and `w` values above,
preserving the step. -/
lemma extend_array_ok_arangePts (a0 s : ℚ) (hs : 0 < s) (n : ℕ)
    (hn : 2 ≤ n) (w : ℕ) (hw : w ≠ 0) :
    extend_array (arangePts a0 s n) (w : ℤ) "both" =
      .ok (arangePts (a0 - w * s) s (w + n + w)) := by
  rw [extend_array]
  rw [if_neg (show ¬((w : ℤ) = 0) from by exact_mod_cast hw)]
  rw [if_neg (show ¬(arangePts a0 s n = []) from by
    intro h
    have hl := arangePts_length a0 s n
    rw [h] at hl
    simp at hl
    omega)]
  rw [if_neg (show ¬((arangePts a0 s n).length = 1) from by
    rw [arangePts_length]
    omega)]
  rw [if_neg (show ¬(meanStep (arangePts a0 s n) = 0) from by
    rw [meanStep_arangePts a0 s n hn]
    exact ne_of_gt hs)]
  rw [if_neg (by decide), if_neg (by decide), if_pos rfl]
  rw [ext_below_arangePts a0 s hs n hn w, ext_above_arangePts a0 s hs n hn w]
  rw [show arangePts a0 s n = arangePts ((a0 - w * s) + w * s) s n from by
    norm_num]
  rw [arangePts_append (a0 - w * s) s w n]
  rw [show a0 + (n : ℚ) * s = (a0 - w * s) + (w + n : ℕ) * s from by
    push_cast
    ring]
  rw [arangePts_append (a0 - w * s) s (w + n) w]

/-- C6 amended: the widened re-search runs exactly when the coarse best
score is strictly below `min_score`, at least one widen parameter is
nonzero, and every axis's `extend_array` call succeeds — a degenerate axis
(fewer than two values, or zero mean spacing) makes the `np.arange` arms
raise, and the exception aborts the call with no re-search at all.  When the
re-search runs, it searches exactly the three extended grids excluding the
initial candidates; on a uniform ascending grid the extension appends
exactly `widen` steps symmetrically on both sides, preserving the step. -/
theorem widen_phase_correct :
    (∀ yw xw zw : ℕ, 0 < max (max yw xw) zw ↔ (yw ≠ 0 ∨ xw ≠ 0 ∨ zw ≠ 0)) ∧
    (∀ (base tr : List Point) (t : ℚ) (ys xs zs : List ℚ) (zsc : ℚ)
      (yw xw zw : ℕ) (s0 : Point) (sc0 ms : ℝ) (initial : List Point),
      ¬(sc0 < ms ∧ 0 < max (max yw xw) zw) →
      widen_phase base tr t ys xs zs zsc yw xw zw s0 sc0 ms initial =
        .ok ⟨ys, xs, zs, s0, sc0⟩) ∧
    (∀ (base tr : List Point) (t : ℚ) (ys xs zs : List ℚ) (zsc : ℚ)
      (yw xw zw : ℕ) (s0 : Point) (sc0 ms : ℝ) (initial : List Point)
      (e : String),
      sc0 < ms → 0 < max (max yw xw) zw →
      extend_array ys yw "both" = .error e →
      widen_phase base tr t ys xs zs zsc yw xw zw s0 sc0 ms initial =
        .error e) ∧
    (∀ (base tr : List Point) (t : ℚ) (ys xs zs : List ℚ) (zsc : ℚ)
      (yw xw zw : ℕ) (s0 : Point) (sc0 ms : ℝ) (initial : List Point)
      (ys1 xs1 zs1 : List ℚ) (g : GBSOut),
      sc0 < ms → 0 < max (max yw xw) zw →
      extend_array ys yw "both" = .ok ys1 →
      extend_array xs xw "both" = .ok xs1 →
      extend_array zs zw "both" = .ok zs1 →
      get_best_shift base tr t ys1 xs1 (zs1.map fun z => z * zsc)
        (some initial) = .ok g →
      widen_phase base tr t ys xs zs zsc yw xw zw s0 sc0 ms initial =
        .ok ⟨ys1, xs1, zs1, g.shift, g.score⟩) ∧
    (∀ (a0 s : ℚ) (n w : ℕ), 0 < s → 2 ≤ n → w ≠ 0 →
      extend_array (arangePts a0 s n) (w : ℤ) "both" =
        .ok (arangePts (a0 - w * s) s (w + n + w))) ∧
    (∀ (ys xs zs : List ℚ) (initial : List Point) (c : Point),
      c ∈ searched_shifts ys xs zs (some initial) → c ∉ initial) := by
  refine ⟨?_, ?_, ?_, ?_, ?_, ?_⟩
  · intro yw xw zw
    omega
  · intro base tr t ys xs zs zsc yw xw zw s0 sc0 ms initial h
    rw [widen_phase, if_neg h]
  · intro base tr t ys xs zs zsc yw xw zw s0 sc0 ms initial e h1 h2 herr
    rw [widen_phase, if_pos ⟨h1, h2⟩, herr, exBind_error]
  · intro base tr t ys xs zs zsc yw xw zw s0 sc0 ms initial ys1 xs1 zs1 g
      h1 h2 hys hxs hzs hok
    rw [widen_phase, if_pos ⟨h1, h2⟩, hys, exBind_ok, hxs, exBind_ok, hzs,
      exBind_ok, hok, exBind_ok]
  · intro a0 s n w hs hn hw
    exact extend_array_ok_arangePts a0 s hs n hn w hw
  · intro ys xs zs initial c hc
    exact (mem_setdiff2d.mp hc).2

/-- The one-candidate evaluation with an empty ignore list. -/
lemma gbs_singleton_ig :
    get_best_shift [((0 : ℚ), 0, 0)] [((0 : ℚ), 0, 0)] 2 [0] [0] [0]
      (some []) = .ok ⟨((0 : ℚ), 0, 0), 1, 1, 0⟩ := by
  have hcs : candidate_score [((0 : ℚ), 0, 0)] [((0 : ℚ), 0, 0)] 2
      ((0 : ℚ), 0, 0) = 1 := by
    rw [cand_score_single]
    norm_num [sqDistQ, addPt, Real.exp_zero]
  have hsearch : searched_shifts [0] [0] [0] (some []) = [((0 : ℚ), 0, 0)] := by
    simp [searched_shifts, setdiff2d, mesh_shifts]
  rw [get_best_shift, if_neg (by simp), if_neg (by simp), if_neg (by
    rw [hsearch]
    simp)]
  rw [hsearch]
  simp only [List.map_cons, List.map_nil, hcs]
  rw [show argmaxIdx [1] = 0 from rfl]
  simp only [List.getD_cons_zero]
  rw [npMedian_singleton, sciIqr_singleton]

/-- The widened search grid of the C6 witness: 0, 4 extended by one step on
each side. -/
lemma extend_array_04 :
    extend_array [(0 : ℚ), 4] 1 "both" = .ok [-4, 0, 4, 8] := by
  rw [show [(0 : ℚ), 4] = arangePts 0 4 2 from by
    simp [arangePts, List.range_succ]]
  rw [show (1 : ℤ) = ((1 : ℕ) : ℤ) from rfl]
  rw [extend_array_ok_arangePts 0 4 (by norm_num) 2 (by norm_num) 1
    (by norm_num)]
  congr 1
  rw [show (0 : ℚ) - ((1 : ℕ) : ℚ) * 4 = -4 from by push_cast; ring]
  simp only [List.range_succ, List.range_zero, arangePts, List.map_append,
    List.map_cons, List.map_nil, List.nil_append, List.cons_append]
  norm_num

/-- C6 witness: each conjunct exercised at concrete inputs — the condition
equivalence, the skip branch, the abort on a singleton axis, the re-search
over the extension of 0, 4 (only the y axis widened), the symmetric
extension of the grid 0, 2 by one step, and the exclusion of an ignored
candidate. -/
theorem widen_phase_correct_witness :
    (0 < max (max 1 0) 0 ↔ ((1 : ℕ) ≠ 0 ∨ (0 : ℕ) ≠ 0 ∨ (0 : ℕ) ≠ 0)) ∧
    (¬((0 : ℝ) < 0 ∧ 0 < max (max 1 1) 1) ∧
      widen_phase [] [] 2 [0] [0] [0] 1 1 1 1 ptZero 0 0 [] =
        .ok ⟨[0], [0], [0], ptZero, 0⟩) ∧
    ((0 : ℝ) < 1 ∧ extend_array [0] ((1 : ℕ) : ℤ) "both" = .error "ValueError" ∧
      widen_phase [((0 : ℚ), 0, 0)] [((0 : ℚ), 0, 0)] 2 [0] [0] [0] 1 1 1 1
        ptZero 0 1 [] = .error "ValueError") ∧
    ((0 : ℝ) < 1 ∧ extend_array [(0 : ℚ), 4] 1 "both" = .ok [-4, 0, 4, 8] ∧
      ∃ g, get_best_shift [((0 : ℚ), 0, 0)] [((0 : ℚ), 0, 0)] 2 [-4, 0, 4, 8]
          [0] (List.map (fun z => z * 1) [(0 : ℚ)]) (some []) = .ok g ∧
        widen_phase [((0 : ℚ), 0, 0)] [((0 : ℚ), 0, 0)] 2 [0, 4] [0] [0] 1
          1 0 0 ptZero 0 1 [] = .ok ⟨[-4, 0, 4, 8], [0], [0], g.shift,
            g.score⟩) ∧
    ((0 : ℚ) < 2 ∧ 2 ≤ 2 ∧ (1 : ℕ) ≠ 0 ∧
      extend_array (arangePts 0 2 2) ((1 : ℕ) : ℤ) "both" =
        .ok (arangePts (0 - 1 * 2) 2 (1 + 2 + 1))) ∧
    (((0 : ℚ), 0, 0) ∈ searched_shifts [0] [0] [0] (some [((4 : ℚ), 4, 4)]) ∧
      (((0 : ℚ), 0, 0) : Point) ∉ ([((4 : ℚ), 4, 4)] : List Point)) := by
  have hskip : ¬((0 : ℝ) < 0 ∧ 0 < max (max 1 1) 1) := fun h => lt_irrefl 0 h.1
  have herr : extend_array [0] ((1 : ℕ) : ℤ) "both" = .error "ValueError" :=
    extend_array_single_err 0 ((1 : ℕ) : ℤ) (by decide) "both"
  have hxs0 : extend_array [(0 : ℚ)] ((0 : ℕ) : ℤ) "both" = .ok [0] := by
    rw [extend_array, if_pos (show ((0 : ℕ) : ℤ) = 0 from by simp)]
  have hmem : ((0 : ℚ), 0, 0) ∈ searched_shifts [0] [0] [0]
      (some [((4 : ℚ), 4, 4)]) := by
    simp only [searched_shifts, setdiff2d, mesh_shifts, List.flatMap_cons,
      List.flatMap_nil, List.map_cons, List.map_nil, List.append_nil]
    norm_num
    decide
  have hsearch : searched_shifts [-4, 0, 4, 8] [0]
      (List.map (fun z => z * 1) [(0 : ℚ)]) (some []) ≠ [] := by
    rw [show List.map (fun z => z * 1) [(0 : ℚ)] = [0] from by norm_num]
    simp [searched_shifts, setdiff2d, mesh_shifts]
  obtain ⟨g, hg, -, -, -, -, -⟩ := gbs_spec [((0 : ℚ), 0, 0)]
    [((0 : ℚ), 0, 0)] 2 [-4, 0, 4, 8] [0]
    (List.map (fun z => z * 1) [(0 : ℚ)]) (some []) (by simp) (by simp)
    hsearch
  refine ⟨widen_phase_correct.1 1 0 0,
    ⟨hskip, widen_phase_correct.2.1 [] [] 2 [0] [0] [0] 1 1 1 1 ptZero 0 0 []
      hskip⟩,
    ⟨zero_lt_one, herr, widen_phase_correct.2.2.1 [((0 : ℚ), 0, 0)]
      [((0 : ℚ), 0, 0)] 2 [0] [0] [0] 1 1 1 1 ptZero 0 1 [] "ValueError"
      zero_lt_one (by decide) herr⟩,
    ⟨zero_lt_one, extend_array_04, g, hg,
      widen_phase_correct.2.2.2.1 [((0 : ℚ), 0, 0)] [((0 : ℚ), 0, 0)] 2
        [0, 4] [0] [0] 1 1 0 0 ptZero 0 1 [] [-4, 0, 4, 8] [0] [0] g
        zero_lt_one (by decide) extend_array_04 hxs0 hxs0 hg⟩,
    ⟨by decide, by decide, by decide, widen_phase_correct.2.2.2.2.1 0 2 2 1
      (by decide) (by decide) (by decide)⟩,
    ⟨hmem, widen_phase_correct.2.2.2.2.2 [0] [0] [0] [((4 : ℚ), 4, 4)]
      ((0 : ℚ), 0, 0) hmem⟩⟩

/-- C6 counterexample: the claim says the widened re-search is performed
exactly when the coarse best score is strictly below `min_score` and some
widen parameter is nonzero.  Here the condition holds (coarse score 1 below
`min_score` 2, all widen parameters 1), yet no re-search is performed: the
singleton y axis makes line 160's `extend_array` raise `ValueError` from
`np.arange` on a nan step, aborting `compute_shift`. -/
theorem widen_search_aborts_on_singleton_axis :
    (1 : ℝ) < 2 ∧ (0 : ℕ) < max (max 1 1) 1 ∧
    (compute_shift [((0 : ℚ), 0, 0)] [((0 : ℚ), 0, 0)] (some 2) 0 2
        [0] [0] [0] 1 1 1 1).1 = .error "ValueError" := by
  refine ⟨by norm_num, by decide, ?_⟩
  have hscale : scaleZ 1 [((0 : ℚ), 0, 0)] = [((0 : ℚ), 0, 0)] := by
    norm_num [scaleZ]
  have hmap : List.map (fun z => z * 1) [(0 : ℚ)] = [0] := by norm_num
  simp only [compute_shift, hscale, hmap]
  rw [gbs_singleton, exBind_ok, msOf_some]
  rw [show widen_phase [((0 : ℚ), 0, 0)] [((0 : ℚ), 0, 0)] 2 [0] [0] [0] 1
      1 1 1 (GBSOut.mk ((0 : ℚ), 0, 0) 1 1 0).shift
      (GBSOut.mk ((0 : ℚ), 0, 0) 1 1 0).score 2 (mesh_shifts [0] [0] [0]) =
      .error "ValueError" from by
    rw [widen_phase, if_pos (⟨show (1 : ℝ) < 2 from by norm_num,
      by decide⟩)]
    rw [extend_array_single_err 0 ((1 : ℕ) : ℤ) (by decide) "both",
      exBind_error]]
  rw [exBind_error]

/-- A single-valued axis is returned untouched by `refined_shifts`. -/
lemma refined_single (b rs es : ℚ) :
    refined_shifts [(0 : ℚ)] b rs es = [0] := by
  rw [refined_shifts, if_pos (by rfl)]

/-- The half-step refinement window around 0 for the grid 0, 4. -/
lemma refined_eval1 :
    refined_shifts [(0 : ℚ), 4] 0 (1 / 2) 2 = [-8, -6, -4, -2, 0, 2, 4, 6, 8] := by
  rw [refined_shifts, if_neg (by norm_num)]
  rw [show meanStep [(0 : ℚ), 4] = 4 from by norm_num [meanStep, diffList]]
  rw [show (⌈(1 / 2 : ℚ) * 4⌉ : ℤ) = 2 from by norm_num [Int.ceil_eq_iff]]
  rw [show (0 : ℚ) - 2 * 4 = -8 from by norm_num]
  rw [show (0 : ℚ) + 2 * 4 + ((2 : ℤ) : ℚ) / 2 = 9 from by norm_num]
  rw [show (((2 : ℤ)) : ℚ) = 2 from by norm_num]
  rw [arangeQ_eq_arangePts (-8) 9 2 9 (by norm_num [Int.ceil_eq_iff])]
  unfold arangePts
  simp only [List.range_succ, List.range_zero, List.map_append, List.map_cons,
    List.map_nil, List.nil_append, List.cons_append]
  norm_num

/-- The unit-step window around 0 for the refined grid of step 2. -/
lemma refined_eval2 :
    refined_shifts [(-8 : ℚ), -6, -4, -2, 0, 2, 4, 6, 8] 0 smallScale 1 =
      [-2, -1, 0, 1, 2] := by
  rw [refined_shifts, if_neg (by norm_num)]
  rw [show meanStep [(-8 : ℚ), -6, -4, -2, 0, 2, 4, 6, 8] = 2 from by
    norm_num [meanStep, diffList]]
  rw [show (⌈smallScale * 2⌉ : ℤ) = 1 from by
    norm_num [smallScale, Int.ceil_eq_iff]]
  rw [show (0 : ℚ) - 1 * 2 = -2 from by norm_num]
  rw [show (0 : ℚ) + 1 * 2 + ((1 : ℤ) : ℚ) / 2 = 5 / 2 from by norm_num]
  rw [show (((1 : ℤ)) : ℚ) = 1 from by norm_num]
  rw [arangeQ_eq_arangePts (-2) (5 / 2) 1 5 (by norm_num [Int.ceil_eq_iff])]
  unfold arangePts
  simp only [List.range_succ, List.range_zero, List.map_append, List.map_cons,
    List.map_nil, List.nil_append, List.cons_append]
  norm_num

/-- The coarse search of the C5/C8 input: coincident one-point clouds,
y candidates 0 and 4. -/
lemma evalAcoarse :
    ∃ g, get_best_shift [((0 : ℚ), 0, 0)] [((0 : ℚ), 0, 0)] 2 [0, 4] [0] [0]
        none = .ok g ∧ g.score = 1 ∧ g.shift = ((0 : ℚ), 0, 0) := by
  obtain ⟨g, hg, hsc, hmem, hcs⟩ :=
    gbs_eval [((0 : ℚ), 0, 0)] [((0 : ℚ), 0, 0)] 2 [0, 4] [0] [0] none
      (by simp) (by simp) ((0 : ℚ), 0, 0) 1
      (by simp [searched_shifts, mesh_shifts])
      (by
        rw [cand_score_single]
        norm_num [sqDistQ, addPt, Real.exp_zero])
      (by
        intro c hc
        simp [searched_shifts, mesh_shifts] at hc
        rcases hc with hc | hc
        · subst hc
          rw [cand_score_single]
          norm_num [sqDistQ, addPt, Real.exp_zero]
        · subst hc
          rw [cand_score_single, Real.exp_le_one_iff]
          norm_num [sqDistQ, addPt])
  refine ⟨g, hg, hsc, ?_⟩
  simp [searched_shifts, mesh_shifts] at hmem
  rcases hmem with hm0 | hm4
  · exact hm0
  · exfalso
    rw [hm4, cand_score_single, Real.exp_eq_one_iff] at hcs
    norm_num [sqDistQ, addPt] at hcs

/-- The searched set of the first refinement: the window minus the two
initial candidates. -/
lemma searchedAref1 :
    searched_shifts [-8, -6, -4, -2, 0, 2, 4, 6, 8] [0] [0]
        (some [((0 : ℚ), 0, 0), ((4 : ℚ), 0, 0)]) =
      [((-8 : ℚ), 0, 0), ((-6 : ℚ), 0, 0), ((-4 : ℚ), 0, 0), ((-2 : ℚ), 0, 0),
        ((2 : ℚ), 0, 0), ((6 : ℚ), 0, 0), ((8 : ℚ), 0, 0)] := by
  simp [searched_shifts, setdiff2d, mesh_shifts]
  norm_num

/-- The first refinement search of the C5/C8 input: half-step window around
0, the two initial candidates excluded; every remaining candidate is at
least 2 away, so the best score is exp(-1/2). -/
lemma evalAref1 :
    ∃ g, get_best_shift [((0 : ℚ), 0, 0)] [((0 : ℚ), 0, 0)] 2
        [-8, -6, -4, -2, 0, 2, 4, 6, 8] [0] [0]
        (some [((0 : ℚ), 0, 0), ((4 : ℚ), 0, 0)]) = .ok g ∧
      g.score = Real.exp (-(1 / 2 : ℝ)) := by
  obtain ⟨g, hg, hsc, hmem, hcs⟩ :=
    gbs_eval [((0 : ℚ), 0, 0)] [((0 : ℚ), 0, 0)] 2
      [-8, -6, -4, -2, 0, 2, 4, 6, 8] [0] [0]
      (some [((0 : ℚ), 0, 0), ((4 : ℚ), 0, 0)])
      (by simp) (by simp) ((-2 : ℚ), 0, 0) (Real.exp (-(1 / 2 : ℝ)))
      (by
        rw [searchedAref1]
        simp)
      (by
        rw [cand_score_single]
        congr 1
        norm_num [sqDistQ, addPt])
      (by
        intro c hc
        rw [searchedAref1] at hc
        simp only [List.mem_cons, List.not_mem_nil, or_false] at hc
        rcases hc with hc | hc | hc | hc | hc | hc | hc <;>
          subst hc <;>
          rw [cand_score_single, Real.exp_le_exp] <;>
          norm_num [sqDistQ, addPt])
  exact ⟨g, hg, hsc⟩

/-- The searched set of the final unit-step refinement. -/
lemma searchedAref2 :
    searched_shifts [-2, -1, 0, 1, 2] [0] [0]
        (some [((0 : ℚ), 0, 0), ((4 : ℚ), 0, 0)]) =
      [((-2 : ℚ), 0, 0), ((-1 : ℚ), 0, 0), ((1 : ℚ), 0, 0), ((2 : ℚ), 0, 0)] := by
  simp [searched_shifts, setdiff2d, mesh_shifts]
  norm_num

/-- The final unit-step search of the C5/C8 input: window -2..2 around 0
excluding 0 itself (an initial candidate); the best score is exp(-1/8),
attained only one unit away from the true shift. -/
lemma evalAref2 :
    ∃ g, get_best_shift [((0 : ℚ), 0, 0)] [((0 : ℚ), 0, 0)] 2
        [-2, -1, 0, 1, 2] [0] [0]
        (some [((0 : ℚ), 0, 0), ((4 : ℚ), 0, 0)]) = .ok g ∧
      g.score = Real.exp (-(1 / 8 : ℝ)) ∧
      (g.shift = ((-1 : ℚ), 0, 0) ∨ g.shift = ((1 : ℚ), 0, 0)) := by
  obtain ⟨g, hg, hsc, hmem, hcs⟩ :=
    gbs_eval [((0 : ℚ), 0, 0)] [((0 : ℚ), 0, 0)] 2 [-2, -1, 0, 1, 2] [0] [0]
      (some [((0 : ℚ), 0, 0), ((4 : ℚ), 0, 0)])
      (by simp) (by simp) ((-1 : ℚ), 0, 0) (Real.exp (-(1 / 8 : ℝ)))
      (by
        rw [searchedAref2]
        simp)
      (by
        rw [cand_score_single]
        congr 1
        norm_num [sqDistQ, addPt])
      (by
        intro c hc
        rw [searchedAref2] at hc
        simp only [List.mem_cons, List.not_mem_nil, or_false] at hc
        rcases hc with hc | hc | hc | hc <;>
          subst hc <;>
          rw [cand_score_single, Real.exp_le_exp] <;>
          norm_num [sqDistQ, addPt])
  refine ⟨g, hg, hsc, ?_⟩
  rw [searchedAref2] at hmem
  simp only [List.mem_cons, List.not_mem_nil, or_false] at hmem
  rcases hmem with hc | hc | hc | hc
  · exfalso
    rw [hc, cand_score_single] at hcs
    have := Real.exp_injective hcs
    norm_num [sqDistQ, addPt] at this
  · exact Or.inl hc
  · exact Or.inr hc
  · exfalso
    rw [hc, cand_score_single] at hcs
    have := Real.exp_injective hcs
    norm_num [sqDistQ, addPt] at this

/-- The whole refinement pass of the C5/C8 input: the first refinement's
best, exp(-1/2), does not beat the held score 1, so the held shift (0,0,0)
is kept; the final unit-step search — which excludes (0,0,0) itself — then
replaces shift and score unconditionally with a one-unit-off candidate
scoring exp(-1/8). -/
lemma evalArefine :
    ∃ pr : Point × ℝ,
      refine_phase [((0 : ℚ), 0, 0)] [((0 : ℚ), 0, 0)] 2 [0, 4] [0] [0] 1
        ((0 : ℚ), 0, 0) 1 (1 / 2) [((0 : ℚ), 0, 0), ((4 : ℚ), 0, 0)] =
        .ok pr ∧
      pr.2 = Real.exp (-(1 / 8 : ℝ)) ∧
      (pr.1 = ((-1 : ℚ), 0, 0) ∨ pr.1 = ((1 : ℚ), 0, 0)) := by
  obtain ⟨g2, hg2, hsc2⟩ := evalAref1
  obtain ⟨g3, hg3, hsc3, hsh3⟩ := evalAref2
  have hp1 : ((0 : ℚ), 0, 0).1 = (0 : ℚ) := rfl
  have hp2 : ((0 : ℚ), 0, 0).2.1 = (0 : ℚ) := rfl
  have hp3 : ((0 : ℚ), 0, 0).2.2 / (1 : ℚ) = (0 : ℚ) := by norm_num
  have hmap : List.map (fun z => z * 1) [(0 : ℚ)] = [0] := by norm_num
  have hkept : keptShift 1 g2 ((0 : ℚ), 0, 0) = ((0 : ℚ), 0, 0) := by
    rw [keptShift, hsc2, if_neg]
    rw [not_lt]
    exact le_of_lt (Real.exp_lt_one_iff.mpr (by norm_num))
  rw [refine_phase, if_pos (by norm_num)]
  simp only [hp1, hp2, hp3, refined_eval1, refined_single, hmap]
  rw [hg2, exBind_ok, hkept]
  simp only [hp1, hp2, hp3, refined_eval2, refined_single, hmap]
  rw [hg3, exBind_ok]
  refine ⟨((g3.shift.1, g3.shift.2.1, g3.shift.2.2 / 1), g3.score), rfl,
    hsc3, ?_⟩
  rcases hsh3 with h | h <;> rw [h]
  · left
    norm_num
  · right
    norm_num

/-- Full evaluation of `compute_shift` at the C5/C8 input: the coarse best
is the exact shift (0,0,0) with the maximal score 1, the refinement is
entered because 1 > 1/2, and the returned triple carries score exp(-1/8) at
a shift one unit away. -/
lemma evalA :
    ∃ s : ℤ × ℤ × ℤ,
      (compute_shift [((0 : ℚ), 0, 0)] [((0 : ℚ), 0, 0)] (some (1 / 2)) 0 2
        [0, 4] [0] [0] 0 0 0 1).1 = .ok (s, Real.exp (-(1 / 8 : ℝ)), 1 / 2) ∧
      (s = ((-1 : ℤ), 0, 0) ∨ s = ((1 : ℤ), 0, 0)) := by
  obtain ⟨g1, hg1, hsc1, hsh1⟩ := evalAcoarse
  obtain ⟨pr, hpr, hprsc, hprsh⟩ := evalArefine
  have hscale : scaleZ 1 [((0 : ℚ), 0, 0)] = [((0 : ℚ), 0, 0)] := by
    norm_num [scaleZ]
  have hmap : List.map (fun z => z * 1) [(0 : ℚ)] = [0] := by norm_num
  have hmesh : mesh_shifts [0, 4] [0] [(0 : ℚ)] =
      [((0 : ℚ), 0, 0), ((4 : ℚ), 0, 0)] := by
    simp [mesh_shifts]
  simp only [compute_shift, hscale, hmap, hmesh]
  rw [hg1, exBind_ok, msOf_some]
  rw [show widen_phase [((0 : ℚ), 0, 0)] [((0 : ℚ), 0, 0)] 2 [0, 4] [0] [0] 1
      0 0 0 g1.shift g1.score (1 / 2)
      [((0 : ℚ), 0, 0), ((4 : ℚ), 0, 0)] =
      .ok ⟨[0, 4], [0], [0], g1.shift, g1.score⟩ from by
    rw [widen_phase, if_neg]
    simp]
  rw [exBind_ok, hsh1, hsc1, hpr, exBind_ok]
  refine ⟨(truncQ pr.1.1, truncQ pr.1.2.1, truncQ pr.1.2.2), ?_, ?_⟩
  · rw [hprsc]
  · rcases hprsh with h | h <;> rw [h]
    · left
      norm_num [truncQ, Int.ceil_eq_iff, Int.floor_eq_iff]
    · right
      norm_num [truncQ, Int.ceil_eq_iff, Int.floor_eq_iff]

/-- C5 counterexample: the claim says the returned score is never lower than
the score held before either refinement.  On coincident one-point clouds
with y candidates 0 and 4 and `min_score = 1/2`, the coarse phase holds the
exact shift with score 1, but the final unit-step refinement — whose search
excludes every initial candidate, including the held shift itself —
replaces shift and score unconditionally, returning exp(-1/8) < 1. -/
theorem refinement_can_lower_score :
    csScore ((compute_shift [((0 : ℚ), 0, 0)] [((0 : ℚ), 0, 0)] (some (1 / 2))
        0 2 [0, 4] [0] [0] 0 0 0 1).1) = Real.exp (-(1 / 8 : ℝ)) ∧
    gbScore (get_best_shift (scaleZ 1 [((0 : ℚ), 0, 0)])
        (scaleZ 1 [((0 : ℚ), 0, 0)]) 2 [0, 4] [0]
        ([0].map fun z => z * 1) none) = 1 ∧
    Real.exp (-(1 / 8 : ℝ)) < 1 := by
  obtain ⟨s, hs, -⟩ := evalA
  obtain ⟨g1, hg1, hsc1, -⟩ := evalAcoarse
  refine ⟨?_, ?_, Real.exp_lt_one_iff.mpr (by norm_num)⟩
  · rw [hs]
    rfl
  · rw [show scaleZ 1 [((0 : ℚ), 0, 0)] = [((0 : ℚ), 0, 0)] from by
        norm_num [scaleZ],
      show List.map (fun z => z * 1) [(0 : ℚ)] = [0] from by norm_num]
    rw [hg1]
    exact hsc1

/-- C8 counterexample: with target equal to base translated by v = (0,0,0)
and v among the candidate shifts, `compute_shift` does not return v: the
final refinement excludes all initial candidates, v included, and its result
replaces the held shift unconditionally, so a shift one unit away is
returned. -/
theorem compute_shift_misses_exact_shift :
    ([((0 : ℚ), 0, 0)].map fun p => addPt p ((0 : ℚ), 0, 0)) =
      [((0 : ℚ), 0, 0)] ∧
    (((0 : ℚ), 0, 0) : Point) ∈ mesh_shifts [0, 4] [0] [0] ∧
    csShift ((compute_shift [((0 : ℚ), 0, 0)] [((0 : ℚ), 0, 0)] (some (1 / 2))
        0 2 [0, 4] [0] [0] 0 0 0 1).1) ≠ ((0 : ℤ), 0, 0) := by
  refine ⟨by norm_num [addPt], by simp [mesh_shifts], ?_⟩
  obtain ⟨s, hs, hcase⟩ := evalA
  rw [hs]
  show s ≠ ((0 : ℤ), 0, 0)
  rcases hcase with h | h <;> rw [h] <;> decide

/-- C5 amended: when the (possibly widened) best score exceeds `min_score`,
two refinements run; after the first, the refined shift is kept only if its
score improves (the held score is not updated), but the second refinement's
shift and score replace the current ones unconditionally (and the returned z
component is divided by `z_scale` on this path), so the returned score is
the final search's score, not necessarily an improvement. -/
theorem refine_phase_behaviour :
    (∀ (sc1 : ℝ) (g2 : GBSOut) (s1 : Point), ¬sc1 < g2.score →
      keptShift sc1 g2 s1 = s1) ∧
    (∀ (sc1 : ℝ) (g2 : GBSOut) (s1 : Point), sc1 < g2.score →
      keptShift sc1 g2 s1 = g2.shift) ∧
    (∀ (base tr : List Point) (t : ℚ) (ys xs zs : List ℚ) (zsc : ℚ)
      (s1 : Point) (sc1 ms : ℝ) (initial : List Point),
      ¬ms < sc1 →
      refine_phase base tr t ys xs zs zsc s1 sc1 ms initial = .ok (s1, sc1)) ∧
    (∀ (base tr : List Point) (t : ℚ) (ys xs zs : List ℚ) (zsc : ℚ)
      (s1 : Point) (sc1 ms : ℝ) (initial : List Point) (g2 g3 : GBSOut),
      ms < sc1 →
      get_best_shift base tr t (refined_shifts ys s1.1 (1 / 2) 2)
        (refined_shifts xs s1.2.1 (1 / 2) 2)
        ((refined_shifts zs (s1.2.2 / zsc) (1 / 2) 2).map fun z => z * zsc)
        (some initial) = .ok g2 →
      get_best_shift base tr t
        (refined_shifts (refined_shifts ys s1.1 (1 / 2) 2)
          (keptShift sc1 g2 s1).1 smallScale 1)
        (refined_shifts (refined_shifts xs s1.2.1 (1 / 2) 2)
          (keptShift sc1 g2 s1).2.1 smallScale 1)
        ((refined_shifts (refined_shifts zs (s1.2.2 / zsc) (1 / 2) 2)
            ((keptShift sc1 g2 s1).2.2 / zsc) smallScale 1).map
          fun z => z * zsc)
        (some initial) = .ok g3 →
      refine_phase base tr t ys xs zs zsc s1 sc1 ms initial =
        .ok ((g3.shift.1, g3.shift.2.1, g3.shift.2.2 / zsc), g3.score)) := by
  refine ⟨?_, ?_, ?_, ?_⟩
  · intro sc1 g2 s1 h
    rw [keptShift, if_neg h]
  · intro sc1 g2 s1 h
    rw [keptShift, if_pos h]
  · intro base tr t ys xs zs zsc s1 sc1 ms initial h
    rw [refine_phase, if_neg h]
  · intro base tr t ys xs zs zsc s1 sc1 ms initial g2 g3 h hok2 hok3
    rw [refine_phase, if_pos h, hok2, exBind_ok, hok3, exBind_ok]

/-- C5 amended, witness: the keep-only-if-better check at scores 1 vs 0 and
0 vs 1, the skipped branch, and the unconditional final replacement on the
degenerate one-candidate search. -/
theorem refine_phase_behaviour_witness :
    (¬(1 : ℝ) < (GBSOut.mk ptZero 0 0 0).score ∧
      keptShift 1 (GBSOut.mk ptZero 0 0 0) ptZero = ptZero) ∧
    ((0 : ℝ) < (GBSOut.mk ptZero 1 1 0).score ∧
      keptShift 0 (GBSOut.mk ptZero 1 1 0) ptZero =
        (GBSOut.mk ptZero 1 1 0).shift) ∧
    (¬(1 : ℝ) < 0 ∧
      refine_phase [] [] 2 [0] [0] [0] 1 ptZero 0 1 [] = .ok (ptZero, 0)) ∧
    ((0 : ℝ) < 1 ∧
      refine_phase [((0 : ℚ), 0, 0)] [((0 : ℚ), 0, 0)] 2 [0] [0] [0] 1
        ptZero 1 0 [] =
      .ok (((GBSOut.mk ((0 : ℚ), 0, 0) 1 1 0).shift.1,
        (GBSOut.mk ((0 : ℚ), 0, 0) 1 1 0).shift.2.1,
        (GBSOut.mk ((0 : ℚ), 0, 0) 1 1 0).shift.2.2 / 1),
        (GBSOut.mk ((0 : ℚ), 0, 0) 1 1 0).score)) := by
  have h10 : ¬(1 : ℝ) < (GBSOut.mk ptZero 0 0 0).score := by
    show ¬(1 : ℝ) < 0
    norm_num
  have h01 : (0 : ℝ) < (GBSOut.mk ptZero 1 1 0).score := zero_lt_one
  have hmap : List.map (fun z => z * 1) [(0 : ℚ)] = [0] := by norm_num
  have hok2 : get_best_shift [((0 : ℚ), 0, 0)] [((0 : ℚ), 0, 0)] 2
      (refined_shifts [0] ptZero.1 (1 / 2) 2)
      (refined_shifts [0] ptZero.2.1 (1 / 2) 2)
      ((refined_shifts [0] (ptZero.2.2 / 1) (1 / 2) 2).map fun z => z * 1)
      (some []) = .ok (GBSOut.mk ((0 : ℚ), 0, 0) 1 1 0) := by
    rw [refined_single, refined_single, refined_single, hmap]
    exact gbs_singleton_ig
  have hok3 : get_best_shift [((0 : ℚ), 0, 0)] [((0 : ℚ), 0, 0)] 2
      (refined_shifts (refined_shifts [0] ptZero.1 (1 / 2) 2)
        (keptShift 1 (GBSOut.mk ((0 : ℚ), 0, 0) 1 1 0) ptZero).1 smallScale 1)
      (refined_shifts (refined_shifts [0] ptZero.2.1 (1 / 2) 2)
        (keptShift 1 (GBSOut.mk ((0 : ℚ), 0, 0) 1 1 0) ptZero).2.1
        smallScale 1)
      ((refined_shifts (refined_shifts [0] (ptZero.2.2 / 1) (1 / 2) 2)
          ((keptShift 1 (GBSOut.mk ((0 : ℚ), 0, 0) 1 1 0) ptZero).2.2 / 1)
          smallScale 1).map fun z => z * 1)
      (some []) = .ok (GBSOut.mk ((0 : ℚ), 0, 0) 1 1 0) := by
    rw [refined_single, refined_single, refined_single]
    rw [refined_single, refined_single, refined_single, hmap]
    exact gbs_singleton_ig
  exact ⟨⟨h10, refine_phase_behaviour.1 1 (GBSOut.mk ptZero 0 0 0) ptZero h10⟩,
    ⟨h01, refine_phase_behaviour.2.1 0 (GBSOut.mk ptZero 1 1 0) ptZero h01⟩,
    ⟨by norm_num, refine_phase_behaviour.2.2.1 [] [] 2 [0] [0] [0] 1 ptZero 0
      1 [] (by norm_num)⟩,
    ⟨zero_lt_one, refine_phase_behaviour.2.2.2 [((0 : ℚ), 0, 0)]
      [((0 : ℚ), 0, 0)] 2 [0] [0] [0] 1 ptZero 1 0 []
      (GBSOut.mk ((0 : ℚ), 0, 0) 1 1 0) (GBSOut.mk ((0 : ℚ), 0, 0) 1 1 0)
      zero_lt_one hok2 hok3⟩⟩

lemma sum_three_sq_eq_zero {a b c : ℚ} (h : a ^ 2 + b ^ 2 + c ^ 2 = 0) :
    a = 0 ∧ b = 0 ∧ c = 0 := by
  have ha := sq_nonneg a
  have hb := sq_nonneg b
  have hc := sq_nonneg c
  have h1 : a ^ 2 = 0 := by nlinarith
  have h2 : b ^ 2 = 0 := by nlinarith
  have h3 : c ^ 2 = 0 := by nlinarith
  refine ⟨?_, ?_, ?_⟩
  · exact (pow_eq_zero_iff (by norm_num)).mp h1
  · exact (pow_eq_zero_iff (by norm_num)).mp h2
  · exact (pow_eq_zero_iff (by norm_num)).mp h3

lemma sqDistQ_eq_zero_iff (p q : Point) : sqDistQ p q = 0 ↔ p = q := by
  unfold sqDistQ
  constructor
  · intro h
    obtain ⟨h1, h2, h3⟩ := sum_three_sq_eq_zero h
    obtain ⟨p1, p2, p3⟩ := p
    obtain ⟨q1, q2, q3⟩ := q
    simp only at h1 h2 h3
    simp only [Prod.mk.injEq]
    refine ⟨by linarith, by linarith, by linarith⟩
  · rintro rfl
    ring

lemma nnSq_le_of_mem (p : Point) :
    ∀ (l : List Point) (q : Point), q ∈ l → nnSq p l ≤ sqDistQ p q
  | [q0], q, hq => by
    simp only [List.mem_singleton] at hq
    subst hq
    exact le_refl _
  | q0 :: r :: tl, q, hq => by
    rcases List.mem_cons.mp hq with h | h
    · subst h
      exact min_le_left _ _
    · exact le_trans (min_le_right _ _) (nnSq_le_of_mem p (r :: tl) q h)

lemma nnSq_pos_of_not_mem (p : Point) :
    ∀ (l : List Point), l ≠ [] → p ∉ l → 0 < nnSq p l
  | [], h, _ => absurd rfl h
  | [q], _, hp => by
    have : p ≠ q := fun hc => hp (hc ▸ List.mem_singleton_self q)
    show 0 < sqDistQ p q
    rcases lt_or_eq_of_le (sqDistQ_nonneg p q) with h | h
    · exact h
    · exact absurd ((sqDistQ_eq_zero_iff p q).mp h.symm) this
  | q :: r :: tl, _, hp => by
    have hq : p ≠ q := fun hc => hp (hc ▸ List.mem_cons_self q (r :: tl))
    have htl : p ∉ r :: tl := fun hc => hp (List.mem_cons_of_mem q hc)
    have h1 : 0 < sqDistQ p q := by
      rcases lt_or_eq_of_le (sqDistQ_nonneg p q) with h | h
      · exact h
      · exact absurd ((sqDistQ_eq_zero_iff p q).mp h.symm) hq
    exact lt_min h1 (nnSq_pos_of_not_mem p (r :: tl) (by simp) htl)

lemma nnSq_eq_zero_of_mem (p : Point) (l : List Point) (hp : p ∈ l) :
    nnSq p l = 0 :=
  le_antisymm
    (by
      have := nnSq_le_of_mem p l p hp
      rwa [(sqDistQ_eq_zero_iff p p).mpr rfl] at this)
    (nnSq_nonneg p l)

lemma listMaxQ_spec :
    ∀ l : List ℚ, l ≠ [] → listMaxQ l ∈ l ∧ ∀ x ∈ l, x ≤ listMaxQ l
  | [q], _ => by
    constructor
    · exact List.mem_singleton_self q
    · intro x hx
      simp only [List.mem_singleton] at hx
      subst hx
      exact le_refl _
  | q :: r :: tl, _ => by
    obtain ⟨hmem, hmax⟩ := listMaxQ_spec (r :: tl) (by simp)
    constructor
    · show max q (listMaxQ (r :: tl)) ∈ _
      rcases max_choice q (listMaxQ (r :: tl)) with h | h <;> rw [h]
      · exact List.mem_cons_self q (r :: tl)
      · exact List.mem_cons_of_mem q hmem
    · intro x hx
      show x ≤ max q (listMaxQ (r :: tl))
      rcases List.mem_cons.mp hx with h | h
      · exact h ▸ le_max_left _ _
      · exact le_trans (hmax x h) (le_max_right _ _)

/-- A finite nonempty point set admits no nonzero translation into itself:
if adding `u` keeps every member inside the list, then `u = 0`. -/
lemma no_self_translation (base : List Point) (hb : base ≠ []) (u : Point)
    (hu : ∀ p ∈ base, addPt p u ∈ base) : u = ptZero := by
  set f : Point → ℚ := fun p => u.1 * p.1 + u.2.1 * p.2.1 + u.2.2 * p.2.2
    with hf
  have hne : base.map f ≠ [] := by
    intro h
    exact hb (List.map_eq_nil_iff.mp h)
  obtain ⟨hmem, hmax⟩ := listMaxQ_spec (base.map f) hne
  obtain ⟨pstar, hpstar, hval⟩ := List.mem_map.mp hmem
  have hshift : f (addPt pstar u) = f pstar + (u.1 ^ 2 + u.2.1 ^ 2 + u.2.2 ^ 2) := by
    simp only [hf, addPt]
    ring
  have hle : f (addPt pstar u) ≤ listMaxQ (base.map f) :=
    hmax _ (List.mem_map.mpr ⟨addPt pstar u, hu pstar hpstar, rfl⟩)
  rw [← hval] at hle
  rw [hshift] at hle
  have husq : u.1 ^ 2 + u.2.1 ^ 2 + u.2.2 ^ 2 = 0 := by
    have ha := sq_nonneg u.1
    have hb := sq_nonneg u.2.1
    have hc := sq_nonneg u.2.2
    linarith
  obtain ⟨h1, h2, h3⟩ := sum_three_sq_eq_zero husq
  obtain ⟨u1, u2, u3⟩ := u
  simp only at h1 h2 h3
  simp only [ptZero, Prod.mk.injEq]
  exact ⟨h1, h2, h3⟩

lemma sum_le_length_of_le_one :
    ∀ l : List ℝ, (∀ x ∈ l, x ≤ 1) → l.sum ≤ (l.length : ℝ)
  | [], _ => by simp
  | x :: tl, h => by
    have h1 := h x (List.mem_cons_self x tl)
    have h2 := sum_le_length_of_le_one tl fun y hy =>
      h y (List.mem_cons_of_mem x hy)
    simp only [List.sum_cons, List.length_cons]
    push_cast
    linarith

lemma sum_lt_length_of_lt_one (l1 l2 : List ℝ) (a : ℝ)
    (hall : ∀ x ∈ l1 ++ a :: l2, x ≤ 1) (ha : a < 1) :
    (l1 ++ a :: l2).sum < ((l1 ++ a :: l2).length : ℝ) := by
  have h1 : l1.sum ≤ (l1.length : ℝ) :=
    sum_le_length_of_le_one l1 fun x hx =>
      hall x (List.mem_append_left _ hx)
  have h2 : l2.sum ≤ (l2.length : ℝ) :=
    sum_le_length_of_le_one l2 fun x hx =>
      hall x (List.mem_append_right _ (List.mem_cons_of_mem a hx))
  simp only [List.sum_append, List.sum_cons, List.length_append,
    List.length_cons]
  push_cast
  linarith

lemma sum_map_eq_length {α : Type} :
    ∀ (l : List α) (F : α → ℝ), (∀ x ∈ l, F x = 1) →
      (l.map F).sum = (l.length : ℝ)
  | [], _, _ => by simp
  | x :: tl, F, h => by
    have h1 := h x (List.mem_cons_self x tl)
    have h2 := sum_map_eq_length tl F fun y hy =>
      h y (List.mem_cons_of_mem x hy)
    simp only [List.map_cons, List.sum_cons, List.length_cons, h1, h2]
    push_cast
    ring

/-- C8 amended: for identical-size clouds with target = base translated by
`v`, the search engine recovers `v` exactly whenever `v` is one of the
candidate shifts: `v` is the unique candidate attaining the maximal score
`n_points` (every point contributes its maximal term 1 only when it lands on
a target point, and a finite cloud admits no nonzero self-translation).
`compute_shift` as a whole does not inherit this (its final refinement
excludes the initial candidates — see the counterexample). -/
theorem get_best_shift_recovers_translation (base : List Point) (v : Point)
    (t : ℚ) (ys xs zs : List ℚ) (hb : base ≠ []) (ht : 0 < t)
    (hv : v ∈ mesh_shifts ys xs zs) :
    ∃ g, get_best_shift base (base.map fun p => addPt p v) t ys xs zs none =
      .ok g ∧ g.shift = v ∧ g.score = (base.length : ℝ) := by
  set target := base.map fun p => addPt p v with htarget
  have ht2 : target ≠ [] := by
    intro h
    exact hb (List.map_eq_nil_iff.mp h)
  have hs : searched_shifts ys xs zs none ≠ [] :=
    List.ne_nil_of_mem (show v ∈ searched_shifts ys xs zs none from hv)
  -- every candidate whose translated cloud lies inside the target scores n
  have hfull : ∀ w : Point, (∀ p ∈ base, addPt p w ∈ target) →
      candidate_score base target t w = (base.length : ℝ) := by
    intro w hw
    unfold candidate_score shift_score
    rw [List.map_map]
    apply sum_map_eq_length
    intro p hp
    have hz : nnSq (addPt p w) target = 0 :=
      nnSq_eq_zero_of_mem _ _ (hw p hp)
    simp only [Function.comp_apply, nn_dist, hz]
    rw [show (((0 : ℚ) : ℝ)) = 0 from by norm_num, Real.sqrt_zero,
      gauss_term_zero]
  -- no candidate scores more than n
  have hle : ∀ w : Point, candidate_score base target t w ≤ (base.length : ℝ) := by
    intro w
    unfold candidate_score shift_score
    rw [List.map_map]
    have := sum_le_length_of_le_one ((base.map fun p =>
        (gauss_term t ∘ fun p => nn_dist (addPt p w) target) p)) ?_
    · rw [show (base.map fun p => (gauss_term t ∘ fun p =>
          nn_dist (addPt p w) target) p) = base.map (gauss_term t ∘ fun p =>
          nn_dist (addPt p w) target) from rfl] at this
      simpa using this
    · intro x hx
      obtain ⟨p, -, hp⟩ := List.mem_map.mp hx
      rw [← hp]
      exact gauss_term_le_one t _
  -- a candidate that strands some point strictly loses
  have hlt : ∀ w : Point, (∃ p ∈ base, addPt p w ∉ target) →
      candidate_score base target t w < (base.length : ℝ) := by
    intro w ⟨p, hp, hpw⟩
    obtain ⟨l1, l2, hdecomp⟩ := List.append_of_mem hp
    have hterm : gauss_term t (nn_dist (addPt p w) target) < 1 := by
      have hpos : 0 < nnSq (addPt p w) target :=
        nnSq_pos_of_not_mem _ target ht2 hpw
      have hd : 0 < nn_dist (addPt p w) target := by
        unfold nn_dist
        apply Real.sqrt_pos.mpr
        exact_mod_cast hpos
      have := gauss_term_strict_anti t ht 0 _ le_rfl hd
      rwa [gauss_term_zero] at this
    unfold candidate_score shift_score
    rw [List.map_map, hdecomp]
    set F : Point → ℝ := gauss_term t ∘ fun q => nn_dist (addPt q w) target
      with hF
    rw [show (l1 ++ p :: l2).map F = l1.map F ++ F p :: l2.map F from by
      simp]
    have hall : ∀ x ∈ l1.map F ++ F p :: l2.map F, x ≤ 1 := by
      intro x hx
      rcases List.mem_append.mp hx with h | h
      · obtain ⟨q, -, hq⟩ := List.mem_map.mp h
        rw [← hq]
        exact gauss_term_le_one t _
      · rcases List.mem_cons.mp h with h | h
        · rw [h]
          exact le_of_lt hterm
        · obtain ⟨q, -, hq⟩ := List.mem_map.mp h
          rw [← hq]
          exact gauss_term_le_one t _
    have := sum_lt_length_of_lt_one (l1.map F) (l2.map F) (F p) hall hterm
    have hlen : ((l1.map F ++ F p :: l2.map F).length : ℝ) =
        ((l1 ++ p :: l2).length : ℝ) := by
      simp
    rw [hlen] at this
    exact this
  obtain ⟨g, hg, hmem, hscoreEq, hmaxAll, -, -⟩ :=
    gbs_spec base target t ys xs zs none hb ht2 hs
  have hvn : candidate_score base target t v = (base.length : ℝ) := by
    apply hfull
    intro p hp
    exact List.mem_map.mpr ⟨p, hp, rfl⟩
  have hgn : g.score = (base.length : ℝ) := by
    have h1 : (base.length : ℝ) ≤ g.score := hvn ▸ hmaxAll v hv
    have h2 : g.score ≤ (base.length : ℝ) := hscoreEq ▸ hle g.shift
    exact le_antisymm h2 h1
  have hall : ∀ p ∈ base, addPt p g.shift ∈ target := by
    by_contra hcon
    push_neg at hcon
    have := hlt g.shift hcon
    rw [← hscoreEq, hgn] at this
    exact lt_irrefl _ this
  -- turn full coverage into a self-translation of the base cloud
  set u : Point := (g.shift.1 - v.1, g.shift.2.1 - v.2.1, g.shift.2.2 - v.2.2)
    with hu
  have hself : ∀ p ∈ base, addPt p u ∈ base := by
    intro p hp
    obtain ⟨q, hq, hqe⟩ := List.mem_map.mp (hall p hp)
    have : addPt p u = q := by
      have h1 : q.1 + v.1 = p.1 + g.shift.1 := congrArg Prod.fst hqe
      have h2 : q.2.1 + v.2.1 = p.2.1 + g.shift.2.1 :=
        congrArg (fun r => r.2.1) hqe
      have h3 : q.2.2 + v.2.2 = p.2.2 + g.shift.2.2 :=
        congrArg (fun r => r.2.2) hqe
      obtain ⟨q1, q2, q3⟩ := q
      simp only [addPt, hu, Prod.mk.injEq]
      simp only at h1 h2 h3
      refine ⟨by linarith, by linarith, by linarith⟩
    rw [this]
    exact hq
  have hu0 : u = ptZero := no_self_translation base hb u hself
  have hshift : g.shift = v := by
    have h1 : g.shift.1 - v.1 = 0 := congrArg Prod.fst hu0
    have h2 : g.shift.2.1 - v.2.1 = 0 := congrArg (fun r => r.2.1) hu0
    have h3 : g.shift.2.2 - v.2.2 = 0 := congrArg (fun r => r.2.2) hu0
    rw [Prod.ext_iff, Prod.ext_iff]
    refine ⟨by linarith, by linarith, by linarith⟩
  exact ⟨g, hg, hshift, hgn⟩

/-- C8 amended, witness: a one-point cloud with v = (0,0,0) on the grid. -/
theorem get_best_shift_recovers_translation_witness :
    ([((0 : ℚ), 0, 0)] : List Point) ≠ [] ∧ (0 : ℚ) < 2 ∧
    (((0 : ℚ), 0, 0) : Point) ∈ mesh_shifts [0] [0] [0] ∧
    ∃ g, get_best_shift [((0 : ℚ), 0, 0)]
        ([((0 : ℚ), 0, 0)].map fun p => addPt p ((0 : ℚ), 0, 0)) 2
        [0] [0] [0] none = .ok g ∧ g.shift = ((0 : ℚ), 0, 0) ∧
      g.score = (([((0 : ℚ), 0, 0)] : List Point).length : ℝ) :=
  ⟨by simp, by decide, by simp [mesh_shifts],
    get_best_shift_recovers_translation [((0 : ℚ), 0, 0)] ((0 : ℚ), 0, 0) 2
      [0] [0] [0] (by simp) (by decide) (by simp [mesh_shifts])⟩

end Coppafish
